import Mathlib

/-!
Verification of the `Trial` core of the tornasole trials module
(`tornasole/trials/trial.py`): the step index, the worker-completion
tracker and its watermark, the index-cursor windowing policy, the tensor
store routing, the `has_passed_step` availability oracle, the
`wait_for_steps` loop and the `maybe_refresh` driver, shallowly embedded
as pure Lean functions over an explicit `TrialState`.
-/

set_option maxRecDepth 8000

namespace Tornasole

/-- Lookup in an association list, first match wins (Python `dict` read). -/
def lookupA {α β : Type} [DecidableEq α] : List (α × β) → α → Option β
  | [], _ => none
  | (k, v) :: rest, a => if k = a then some v else lookupA rest a

/-- Replace the value at a key in an association list (Python `dict` write
to an existing key); leaves the list unchanged when the key is absent. -/
def updateA {α β : Type} [DecidableEq α] : List (α × β) → α → β → List (α × β)
  | [], _, _ => []
  | (k, v) :: rest, a, b => if k = a then (k, b) :: rest else (k, v) :: updateA rest a b

theorem lookupA_nil {α β : Type} [DecidableEq α] (a : α) :
    lookupA ([] : List (α × β)) a = none := rfl

theorem lookupA_cons {α β : Type} [DecidableEq α] (k a : α) (v : β) (l : List (α × β)) :
    lookupA ((k, v) :: l) a = if k = a then some v else lookupA l a := rfl

theorem lookupA_append {α β : Type} [DecidableEq α] (l₁ l₂ : List (α × β)) (a : α) :
    lookupA (l₁ ++ l₂) a =
      match lookupA l₁ a with
      | some v => some v
      | none => lookupA l₂ a := by
  induction l₁ with
  | nil => simp [lookupA]
  | cons kv rest ih =>
    obtain ⟨k, v⟩ := kv
    by_cases h : k = a <;> simp [lookupA, h, ih]

theorem lookupA_eq_none_iff {α β : Type} [DecidableEq α] (l : List (α × β)) (a : α) :
    lookupA l a = none ↔ a ∉ l.map Prod.fst := by
  induction l with
  | nil => simp [lookupA]
  | cons kv rest ih =>
    obtain ⟨k, v⟩ := kv
    by_cases h : k = a
    · simp [lookupA, h]
    · simp only [lookupA, if_neg h, List.map_cons, List.mem_cons, ih]
      constructor
      · intro hna hc
        rcases hc with hc | hc
        · exact h hc.symm
        · exact hna hc
      · intro hna hc
        exact hna (Or.inr hc)

theorem lookupA_updateA_self {α β : Type} [DecidableEq α] (l : List (α × β)) (a : α) (b : β)
    (h : (lookupA l a).isSome) : lookupA (updateA l a b) a = some b := by
  induction l with
  | nil => simp [lookupA] at h
  | cons kv rest ih =>
    obtain ⟨k, v⟩ := kv
    by_cases hk : k = a
    · simp [lookupA, updateA, hk]
    · simp [lookupA, updateA, hk] at h ⊢
      exact ih h

theorem lookupA_updateA_other {α β : Type} [DecidableEq α] (l : List (α × β)) (a a' : α) (b : β)
    (h : a ≠ a') : lookupA (updateA l a b) a' = lookupA l a' := by
  induction l with
  | nil => simp [updateA]
  | cons kv rest ih =>
    obtain ⟨k, v⟩ := kv
    by_cases hk : k = a
    · subst hk
      simp [lookupA, updateA, h]
    · simp [lookupA, updateA, hk]
      by_cases hk' : k = a' <;> simp [hk', ih]

theorem updateA_keys {α β : Type} [DecidableEq α] (l : List (α × β)) (a : α) (b : β) :
    (updateA l a b).map Prod.fst = l.map Prod.fst := by
  induction l with
  | nil => simp [updateA]
  | cons kv rest ih =>
    obtain ⟨k, v⟩ := kv
    by_cases hk : k = a <;> simp [updateA, hk, ih]

/-- Lexicographic comparison of strings by code point, mirroring Python's
`<` on `str` as used by `sorted` over worker names. -/
def charListLt : List Char → List Char → Bool
  | [], [] => false
  | [], _ :: _ => true
  | _ :: _, [] => false
  | a :: as, b :: bs =>
    if a.toNat < b.toNat then true
    else if b.toNat < a.toNat then false
    else charListLt as bs

/-- `sorted(list(worker_set))[-1]`: the lexicographically last worker name,
`none` when the set is empty (the source raises `IndexError` there). -/
def lastWorker (l : List String) : Option String :=
  match l with
  | [] => none
  | w :: ws => some (ws.foldl (fun acc b => if charListLt acc.toList b.toList then b else acc) w)

/-- `tornasole.core.modes.ModeKeys` (outside `src/`): the mode enumeration;
the spec names GLOBAL and the named training phases such as TRAIN/EVAL. -/
inductive ModeKeys where
  | GLOBAL
  | TRAIN
  | EVAL
  | PREDICT
deriving DecidableEq, Repr

/-- Modelled from the spec: a tensor record carries "either a value or a
location reference" (§9's tagged union): `location` mirrors a
`TensorLocation` (file + byte offset/length), `value` a materialized value
(`type(to) is TensorLocation` distinguishes the two in `add_tensor`). -/
inductive TensorPayload where
  | location (event_file_name : String) (start_idx : Nat) (byte_len : Nat)
  | value (v : Int)
deriving DecidableEq, Repr

/-- An incoming tensor record as `add_tensor` consumes it: a tensor name,
mode, mode-local step and payload (the step number and worker are passed
alongside the record in `add_tensor(step_num, worker, tensor_object)`). -/
structure TensorRecord where
  tensorname : String
  mode : ModeKeys
  mode_step : Nat
  payload : TensorPayload
deriving DecidableEq, Repr

/-- Modelled from the spec: `tornasole.core.tensor.Tensor` (outside `src/`)
"owns an ordered history of (mode, mode-step, worker) → value entries" plus
reduction entries keyed additionally by (reduction op, abs-flag);
`add_step` / `add_step_lazy` append to `steps`, `add_reduction_step` /
`add_reduction_step_lazy` append to `reductions`. -/
structure TensorHist where
  tname : String
  steps : List (ModeKeys × Nat × String × TensorPayload)
  reductions : List (ModeKeys × Nat × String × String × Bool × TensorPayload)
deriving DecidableEq, Repr

def emptyTensor (n : String) : TensorHist := ⟨n, [], []⟩

/-- Modelled from the spec: an `IndexFileLocationUtils` index-file key
(outside `src/`) "encodes a step number and a worker name internally but
must be treated as opaque beyond that"; we keep the storage-prefix, the
step and the worker component explicit. -/
structure IndexToken where
  prfx : String
  step : Int
  worker : String
deriving DecidableEq, Repr

/-- Modelled from the spec:
`IndexFileLocationUtils.parse_step_from_index_file_name` extracts the step
number encoded in an index key. -/
def parse_step_from_index_file_name (t : IndexToken) : Int := t.step

/-- Modelled from the spec:
`IndexFileLocationUtils.get_prefix_from_index_file` extracts the storage
prefix of an index key. -/
def get_prefix_from_index_file (t : IndexToken) : String := t.prfx

/-- Modelled from the spec:
`IndexFileLocationUtils.get_index_key_for_step(prefix, step, worker)`
builds the index key for a step with a worker-name anchor. -/
def get_index_key_for_step (p : String) (step : Int) (worker : String) : IndexToken :=
  ⟨p, step, worker⟩

/-- Modelled from the spec: `tornasole.core.utils.serialize_tf_device`
(outside `src/`) "converts worker_name to serialized workerName if it's a
tf device, else no effect"; the claims depend only on it being a fixed
normalization, modelled as replacing the TF-device separator `/` by `_`. -/
def serialize_tf_device (w : String) : String :=
  String.mk (w.toList.map fun c => if c = '/' then '_' else c)

/-- Modelled from the spec: `TORNASOLE_REDUCTIONS_PREFIX` (from
`tornasole.core.reductions`, outside `src/`), the reduction-prefix marker
carried by reduction-tensor names. -/
def tornasoleReductionsMarker : String := "tornasole/reductions/"

/-- Boolean infix test on character lists (`marker in name` in Python). -/
def listStartsWith : List Char → List Char → Bool
  | [], _ => true
  | _ :: _, [] => false
  | a :: as, b :: bs => a = b && listStartsWith as bs

def listHasInside (p : List Char) : List Char → Bool
  | [] => listStartsWith p []
  | l@(_ :: rest) => listStartsWith p l || listHasInside p rest

/-- `TORNASOLE_REDUCTIONS_PREFIX in tensorname` (Python substring test). -/
def hasReductionsMarker (s : String) : Bool :=
  listHasInside tornasoleReductionsMarker.toList s.toList

/-- Modelled from the spec: `get_reduction_tensor_name` (outside `src/`)
encodes the triple (base tensor name, reduction op, abs-flag) under the
reduction marker; we fix the encoding
`marker ++ base ++ "/" ++ (if abs then "abs_" else "") ++ op`. -/
def mkReductionTensorName (base op : String) (absFlag : Bool) : String :=
  tornasoleReductionsMarker ++ base ++ "/" ++ (if absFlag then "abs_" else "") ++ op

/-- Split a character list at its last `/`: returns (before, after). -/
def splitAtLastSlash (l : List Char) : List Char × List Char :=
  match l with
  | [] => ([], [])
  | c :: rest =>
    if ('/' : Char) ∈ rest then
      let (b, a) := splitAtLastSlash rest
      (c :: b, a)
    else if c = '/' then ([], rest)
    else (c :: rest, [])

/-- Modelled from the spec: `reverse_reduction_tensor_name` (outside
`src/`) decomposes a reduction-prefixed tensor name into
(base name, reduction op, abs-flag), inverting `mkReductionTensorName`. -/
def reverse_reduction_tensor_name (n : String) : String × String × Bool :=
  let rest := n.toList.drop tornasoleReductionsMarker.toList.length
  let (base, red) := splitAtLastSlash rest
  if listStartsWith "abs_".toList red then
    (String.mk base, String.mk (red.drop 4), true)
  else
    (String.mk base, String.mk red, false)

/-- The in-memory state a `Trial` owns (`Trial.__init__`): the tensor
store, both step maps, the worker-completion tracker with its watermark,
the index cursor and the refresh flags. `worker_set` and `num_workers` are
filled by the `_load_collections` bootstrap (a collaborator handshake, §4.6),
so `initTrial` takes them as parameters. -/
structure TrialState where
  _tensors : List (String × TensorHist)
  _mode_to_global : List (ModeKeys × List (Nat × Nat))
  _global_to_mode : List (Nat × ModeKeys × Nat)
  worker_set : List String
  num_workers : Nat
  workers_for_step : List (Nat × List String)
  last_complete_step : Int
  incomplete_wait_for_step_window : Nat
  loaded_all_steps : Bool
  dynamic_refresh : Bool
  last_index_token : Option IndexToken
deriving DecidableEq, Repr

/-- A freshly constructed `Trial` after the collection bootstrap:
empty maps, `last_complete_step = -1`, `loaded_all_steps = False`,
`dynamic_refresh = True`, no index token. -/
def initTrial (workers : List String) (num_workers : Nat) (window : Nat) : TrialState :=
  ⟨[], [], [], workers, num_workers, [], -1, window, false, true, none⟩

/-- `Trial._populate_step_dict(tensor_object, step_num)`: insert both
directions of the step mapping if absent; the mode→global map never gets a
GLOBAL key. -/
def _populate_step_dict (s : TrialState) (tObj : TensorRecord) (step_num : Nat) : TrialState :=
  let m2g :=
    if tObj.mode ≠ ModeKeys.GLOBAL then
      match lookupA s._mode_to_global tObj.mode with
      | none => s._mode_to_global ++ [(tObj.mode, [(tObj.mode_step, step_num)])]
      | some inner =>
        if (lookupA inner tObj.mode_step).isNone then
          updateA s._mode_to_global tObj.mode (inner ++ [(tObj.mode_step, step_num)])
        else s._mode_to_global
    else s._mode_to_global
  let g2m :=
    if (lookupA s._global_to_mode step_num).isNone then
      s._global_to_mode ++ [(step_num, tObj.mode, tObj.mode_step)]
    else s._global_to_mode
  { s with _mode_to_global := m2g, _global_to_mode := g2m }

/-- The step's worker set after `self.workers_for_step[step].add(worker)`
(created empty when absent first). -/
def wfsSet (s : TrialState) (step : Nat) (worker : String) : List String :=
  let ws := (lookupA s.workers_for_step step).getD []
  if worker ∈ ws then ws else ws ++ [worker]

/-- The whole `workers_for_step` map after the insertion. -/
def wfsMap (s : TrialState) (step : Nat) (worker : String) : List (Nat × List String) :=
  match lookupA s.workers_for_step step with
  | none => s.workers_for_step ++ [(step, wfsSet s step worker)]
  | some _ => updateA s.workers_for_step step (wfsSet s step worker)

/-- `Trial._populate_workers_for_step(step, worker)`: add the worker to the
step's set; when the set reaches `num_workers` and the step exceeds the
watermark, advance `last_complete_step` to the step. -/
def _populate_workers_for_step (s : TrialState) (step : Nat) (worker : String) : TrialState :=
  if (wfsSet s step worker).length = s.num_workers ∧ s.last_complete_step < (step : Int) then
    { s with workers_for_step := wfsMap s step worker, last_complete_step := (step : Int) }
  else
    { s with workers_for_step := wfsMap s step worker }

/-- The key under which `add_tensor` stores the record: the base name
recovered by `reverse_reduction_tensor_name` for reduction-prefixed names,
the record's own name otherwise. -/
def addTname (tObj : TensorRecord) : String :=
  if hasReductionsMarker tObj.tensorname then (reverse_reduction_tensor_name tObj.tensorname).1
  else tObj.tensorname

/-- `if tname not in self._tensors: self._tensors[tname] = Tensor(tname)`. -/
def addTensorEntry (s : TrialState) (tObj : TensorRecord) : TrialState :=
  { s with _tensors :=
      if (lookupA s._tensors (addTname tObj)).isNone then
        s._tensors ++ [(addTname tObj, emptyTensor (addTname tObj))]
      else s._tensors }

/-- How one record extends a tensor's history: a reduction entry for
reduction-prefixed names (`add_reduction_step[_lazy]`), a primary entry
otherwise (`add_step[_lazy]`); lazy versus eager is the record's payload. -/
def histUpdate (t : TensorHist) (worker : String) (tObj : TensorRecord) : TensorHist :=
  if hasReductionsMarker tObj.tensorname then
    { t with reductions := t.reductions ++ [(tObj.mode, tObj.mode_step, worker,
                (reverse_reduction_tensor_name tObj.tensorname).2.1,
                (reverse_reduction_tensor_name tObj.tensorname).2.2, tObj.payload)] }
  else
    { t with steps := t.steps ++ [(tObj.mode, tObj.mode_step, worker, tObj.payload)] }

/-- The final history append of `add_tensor`, on the tensor stored under
the record's base name. -/
def addHistEntry (s : TrialState) (worker : String) (tObj : TensorRecord) : TrialState :=
  { s with _tensors := updateA s._tensors (addTname tObj)
               (histUpdate ((lookupA s._tensors (addTname tObj)).getD
                 (emptyTensor (addTname tObj))) worker tObj) }

/-- `Trial.add_tensor(step_num, worker, tensor_object)`: decompose a
reduction-prefixed name to its base name, create the base tensor entry on
first sight, feed the step index and the worker tracker, then append the
record to the tensor's primary or reduction history (lazy when the record
is a location, eager otherwise), in the source's statement order. -/
def add_tensor (s : TrialState) (step_num : Nat) (worker : String) (tObj : TensorRecord) :
    TrialState :=
  addHistEntry
    (_populate_workers_for_step (_populate_step_dict (addTensorEntry s tObj) tObj step_num)
      step_num worker)
    worker tObj

/-- The step encoded in the current cursor, `0` when no token exists yet
(`Trial._update_last_index_token`, lines 502–507). -/
def last_index_token_step (s : TrialState) : Int :=
  match s.last_index_token with
  | none => 0
  | some t => parse_step_from_index_file_name t

/-- `Trial._update_last_index_token(new_index_token)`: run the two cursor
rules in order. Case 1 (catch-up): when the watermark exceeds the cursor's
step, rewrite the cursor at the watermark step anchored at the
lexicographically last worker, serialized. Case 2 (backpressure window):
when distinct known steps minus (watermark + 1) exceed the window, rewrite
the cursor at watermark + window/2 and advance the watermark to the step
parsed back from that cursor. The source indexes `sorted(worker_set)[-1]`
and raises on an empty worker set; the model leaves the state unchanged in
that (never-exercised) case. -/
def catchUpState (s : TrialState) (new_index_token : IndexToken) : TrialState :=
  if last_index_token_step s < s.last_complete_step then
    match lastWorker s.worker_set with
    | none => s
    | some w =>
      { s with last_index_token := some (get_index_key_for_step
          (get_prefix_from_index_file new_index_token)
          s.last_complete_step (serialize_tf_device w)) }
  else s

def windowForceState (s1 : TrialState) (new_index_token : IndexToken) : TrialState :=
  if (s1.incomplete_wait_for_step_window : Int) <
      (s1._global_to_mode.length : Int) - (s1.last_complete_step + 1) then
    match lastWorker s1.worker_set with
    | none => s1
    | some w =>
      { s1 with
        last_index_token := some (get_index_key_for_step
          (get_prefix_from_index_file new_index_token)
          (s1.last_complete_step + ((s1.incomplete_wait_for_step_window / 2 : Nat) : Int))
          (serialize_tf_device w)),
        last_complete_step := parse_step_from_index_file_name (get_index_key_for_step
          (get_prefix_from_index_file new_index_token)
          (s1.last_complete_step + ((s1.incomplete_wait_for_step_window / 2 : Nat) : Int))
          (serialize_tf_device w)) }
  else s1

def _update_last_index_token (s : TrialState) (new_index_token : IndexToken) : TrialState :=
  windowForceState (catchUpState s new_index_token) new_index_token

/-- One record handed to `add_tensor` during a refresh: (step, worker,
record). -/
structure AddRec where
  step : Nat
  worker : String
  record : TensorRecord
deriving DecidableEq, Repr

/-- `Trial.refresh_tensors` in index mode: feed every record newly returned
by the index reader through `add_tensor` (the subclass's
`_load_tensors_from_index_tensors`, modelled from the spec's §4.4/§4.6:
"feed every returned record through TensorStore"), then run the cursor
rules when the reader returned a new, non-`None` token. -/
def refresh_tensors (s : TrialState) (recs : List AddRec) (new_token : Option IndexToken) :
    TrialState :=
  let s1 := recs.foldl (fun st r => add_tensor st r.step r.worker r.record) s
  match new_token with
  | none => s1
  | some t => _update_last_index_token s1 t

/-- Largest key of the global step map: `sorted(_global_to_mode.keys())[-1]`. -/
def maxKeyG (l : List (Nat × ModeKeys × Nat)) : Nat :=
  (l.map Prod.fst).foldl max 0

/-- `Trial.maybe_refresh()`: no-op when the trial has latched
(`loaded_all_steps`) or dynamic refresh is off; otherwise one refresh, and
when the job-end marker is observed a second refresh (after the configured
sleep) followed by the permanent latch, which also sets the watermark to
the largest global step seen when any step exists. The records and tokens
each refresh pass observes are the collaborator's inputs, passed in
explicitly. -/
def maybe_refresh (s : TrialState) (training_ended : Bool)
    (r1 : List AddRec) (t1 : Option IndexToken)
    (r2 : List AddRec) (t2 : Option IndexToken) : TrialState :=
  if s.loaded_all_steps || !s.dynamic_refresh then s
  else
    let s1 := refresh_tensors s r1 t1
    let s2 := if training_ended then refresh_tensors s1 r2 t2 else s1
    if training_ended then
      { s2 with
        loaded_all_steps := true,
        last_complete_step :=
          if s2._global_to_mode.length ≠ 0 then (maxKeyG s2._global_to_mode : Int)
          else s2.last_complete_step }
    else s2

/-- One externally triggered mutation of a `Trial`: a single `add_tensor`
call, a cursor update after a non-empty reconciliation pass, a plain
refresh, or a `maybe_refresh` with the collaborator inputs it observed. -/
inductive TrialOp where
  | add (step : Nat) (worker : String) (rec : TensorRecord)
  | update (tok : IndexToken)
  | refreshT (recs : List AddRec) (tok : Option IndexToken)
  | maybeR (ended : Bool) (r1 : List AddRec) (t1 : Option IndexToken)
      (r2 : List AddRec) (t2 : Option IndexToken)
deriving Repr

def applyOp (s : TrialState) : TrialOp → TrialState
  | .add step worker record => add_tensor s step worker record
  | .update tok => _update_last_index_token s tok
  | .refreshT recs tok => refresh_tensors s recs tok
  | .maybeR ended r1 t1 r2 t2 => maybe_refresh s ended r1 t1 r2 t2

def applyOps (s : TrialState) (ops : List TrialOp) : TrialState :=
  ops.foldl applyOp s

/-! Query side. The source wraps each query in a `maybe_refresh` call
before reading the maps; the refresh is modelled separately as an explicit
`TrialOp`, and the queries below are the pure reads of the in-memory state
that follow it (§2: "AvailabilityOracle answers queries purely from the
updated in-memory state"). -/

/-- `Trial._all_steps(mode)`: sorted global steps for GLOBAL, sorted
mode-local steps for a known mode, `[]` for an unknown mode. -/
def _all_steps (s : TrialState) (mode : ModeKeys) : List Nat :=
  if mode = ModeKeys.GLOBAL then
    List.insertionSort (· ≤ ·) (s._global_to_mode.map Prod.fst)
  else
    match lookupA s._mode_to_global mode with
    | some inner => List.insertionSort (· ≤ ·) (inner.map Prod.fst)
    | none => []

/-- `Trial._global_step_currently(mode, mode_step)`: GLOBAL mode returns
the mode step itself; otherwise a nested lookup, `none` when absent. -/
def _global_step_currently (s : TrialState) (mode : ModeKeys) (mode_step : Nat) : Option Nat :=
  if mode = ModeKeys.GLOBAL then some mode_step
  else
    match lookupA s._mode_to_global mode with
    | none => none
    | some inner => lookupA inner mode_step

/-- `Trial.global_step(mode, mode_step)` on a quiescent state (the source
retries once after `maybe_refresh`; with no new data both reads agree). -/
def global_step (s : TrialState) (mode : ModeKeys) (mode_step : Nat) : Option Nat :=
  _global_step_currently s mode mode_step

/-- `Trial._mode_modestep_currently(global_step)`. -/
def _mode_modestep_currently (s : TrialState) (g : Nat) : Option (ModeKeys × Nat) :=
  lookupA s._global_to_mode g

/-- `Trial.mode_modestep(global_step)` on a quiescent state; the source's
`(None, None)` fallback is the `none` of the option. -/
def mode_modestep (s : TrialState) (g : Nat) : Option (ModeKeys × Nat) :=
  _mode_modestep_currently s g

/-- `Trial.modes()`: the keys of the mode→global map ("will not return
global mode"). -/
def modes (s : TrialState) : List ModeKeys :=
  s._mode_to_global.map Prod.fst

/-- `tornasole.core.tensor.StepState` (outside `src/`, named by the spec's
§4.5 oracle): the per-query availability verdict. -/
inductive StepState where
  | AVAILABLE
  | NOT_YET_AVAILABLE
  | UNAVAILABLE
deriving DecidableEq, Repr

/-- `bisect.bisect_left` on an ascending list: the leftmost insertion
point, i.e. the length of the maximal leading run of elements `< x`. -/
def bisect_left (l : List Nat) (x : Nat) : Nat :=
  (l.takeWhile (fun y => y < x)).length

/-- `Trial.has_passed_step(step, mode)`: the §4.5 oracle. `none` models the
uncaught `KeyError` the source would raise when the found step has no
`workers_for_step` entry (possible only for a non-GLOBAL mode whose local
step number is not also a global step). -/
def has_passed_step (s : TrialState) (step : Nat) (mode : ModeKeys) : Option StepState :=
  match (_all_steps s mode)[bisect_left (_all_steps s mode) step]? with
  | some found =>
    if step < found then
      if step < s.last_complete_step then some StepState.UNAVAILABLE
      else some StepState.NOT_YET_AVAILABLE
    else if found = step then
      match lookupA s.workers_for_step step with
      | none => none
      | some ws =>
        if ws.length = s.num_workers then some StepState.AVAILABLE
        else if s.loaded_all_steps then some StepState.AVAILABLE
        else if (step : Int) ≤ s.last_complete_step then some StepState.AVAILABLE
        else some StepState.NOT_YET_AVAILABLE
    else
      if s.loaded_all_steps then some StepState.UNAVAILABLE
      else some StepState.NOT_YET_AVAILABLE
  | none =>
    if s.loaded_all_steps then some StepState.UNAVAILABLE
    else some StepState.NOT_YET_AVAILABLE

/-- The outcome of a `wait_for_steps` call on a quiescent state. -/
inductive WaitOutcome where
  | ok
  | stepUnavailableErr (step : Nat) (mode : ModeKeys)
  | noMoreDataErr (step : Nat) (mode : ModeKeys) (last_step : Int)
  | wouldBlock (step : Nat) (mode : ModeKeys)
  | keyErr
deriving DecidableEq, Repr

/-- `avail_steps[-1] if avail_steps else -1` (`Trial.wait_for_steps`,
lines 412–415). -/
def lastStepOr (l : List Nat) (d : Int) : Int :=
  match l.getLast? with
  | some x => (x : Int)
  | none => d

/-- `Trial.wait_for_steps(required_steps, mode)` on a quiescent state (once
the trial has latched, or when refresh returns nothing new, the loop's
repeated polling reads the same state): `UNAVAILABLE` aborts with
`StepUnavailable`; `AVAILABLE` moves to the next requested step;
`NOT_YET_AVAILABLE` aborts with `NoMoreData` (carrying the last known step)
when the trial has latched, and otherwise polls forever (`wouldBlock`). -/
def wait_for_steps (s : TrialState) (required_steps : List Nat) (mode : ModeKeys) : WaitOutcome :=
  match required_steps with
  | [] => WaitOutcome.ok
  | step :: rest =>
    match has_passed_step s step mode with
    | none => WaitOutcome.keyErr
    | some StepState.UNAVAILABLE => WaitOutcome.stepUnavailableErr step mode
    | some StepState.AVAILABLE => wait_for_steps s rest mode
    | some StepState.NOT_YET_AVAILABLE =>
      if s.loaded_all_steps then
        WaitOutcome.noMoreDataErr step mode (lastStepOr (_all_steps s mode) (-1))
      else WaitOutcome.wouldBlock step mode

/-! Helper lemmas about sorted lists, `bisect_left`, and the oracle. -/

theorem sorted_all_steps (s : TrialState) (mode : ModeKeys) :
    List.Sorted (· ≤ ·) (_all_steps s mode) := by
  unfold _all_steps
  by_cases h : mode = ModeKeys.GLOBAL
  · simpa [h] using List.sorted_insertionSort (· ≤ ·) (s._global_to_mode.map Prod.fst)
  · simp only [h, if_neg]
    match lookupA s._mode_to_global mode with
    | some inner =>
      simpa using List.sorted_insertionSort (· ≤ ·) (inner.map Prod.fst)
    | none => simp

theorem bisect_left_cons_lt {a x : Nat} (l : List Nat) (h : a < x) :
    bisect_left (a :: l) x = bisect_left l x + 1 := by
  simp [bisect_left, List.takeWhile_cons, h, Nat.add_comm]

theorem bisect_left_cons_ge {a x : Nat} (l : List Nat) (h : ¬a < x) :
    bisect_left (a :: l) x = 0 := by
  simp [bisect_left, List.takeWhile_cons, h]

/-- On a sorted list containing `x`, `bisect_left` lands exactly on `x`. -/
theorem bisect_left_mem {l : List Nat} {x : Nat} (hs : List.Sorted (· ≤ ·) l) (hm : x ∈ l) :
    l[bisect_left l x]? = some x := by
  induction l with
  | nil => cases hm
  | cons a l ih =>
    obtain ⟨hhead, htail⟩ := List.sorted_cons.mp hs
    by_cases h : a < x
    · have hx : x ∈ l := by
        rcases List.mem_cons.mp hm with rfl | hx
        · exact absurd h (lt_irrefl x)
        · exact hx
      rw [bisect_left_cons_lt l h]
      simpa using ih htail hx
    · have hxa : x ≤ a := Nat.le_of_not_lt h
      have hax : a = x := by
        rcases List.mem_cons.mp hm with rfl | hx
        · rfl
        · exact Nat.le_antisymm (hhead x hx) hxa
      rw [bisect_left_cons_ge l h]
      simp [hax]

/-- On a sorted list not containing `x` but containing some `y > x`,
`bisect_left` lands on an element strictly greater than `x`. -/
theorem bisect_left_skipped {l : List Nat} {x y : Nat} (hs : List.Sorted (· ≤ ·) l)
    (hnx : x ∉ l) (hy : y ∈ l) (hxy : x < y) :
    ∃ f, l[bisect_left l x]? = some f ∧ x < f := by
  induction l with
  | nil => cases hy
  | cons a l ih =>
    obtain ⟨hhead, htail⟩ := List.sorted_cons.mp hs
    by_cases h : a < x
    · have hyx : y ∈ l := by
        rcases List.mem_cons.mp hy with rfl | hm
        · exact absurd (Nat.lt_trans h hxy) (Nat.lt_irrefl _)
        · exact hm
      have hnx' : x ∉ l := fun hm => hnx (List.mem_cons_of_mem a hm)
      obtain ⟨f, hf, hfx⟩ := ih htail hnx' hyx
      refine ⟨f, ?_, hfx⟩
      rw [bisect_left_cons_lt l h]
      simpa using hf
    · refine ⟨a, ?_, ?_⟩
      · rw [bisect_left_cons_ge l h]
        simp
      · have : x ≤ a := Nat.le_of_not_lt h
        rcases Nat.lt_or_ge x a with hlt | hge
        · exact hlt
        · have : x = a := Nat.le_antisymm (Nat.le_of_not_lt h) hge
          exact absurd (this ▸ List.mem_cons_self a l) hnx

/-- When every element of the list is `< x`, `bisect_left` falls off the
end. -/
theorem bisect_left_beyond {l : List Nat} {x : Nat} (h : ∀ y ∈ l, y < x) :
    l[bisect_left l x]? = none := by
  have : l.takeWhile (fun y => y < x) = l := by
    induction l with
    | nil => rfl
    | cons a l ih =>
      have ha : a < x := h a (List.mem_cons_self a l)
      have ih2 := ih (fun y hy => h y (List.mem_cons_of_mem a hy))
      simp [List.takeWhile_cons, ha, ih2]
  unfold bisect_left
  rw [this]
  exact List.getElem?_eq_none (le_refl l.length)

/-- Oracle verdict when the queried step is among the known steps of the
mode and has a worker entry: branch 5 of §4.5. -/
theorem hps_of_mem {s : TrialState} {step : Nat} {mode : ModeKeys} {ws : List String}
    (hmem : step ∈ _all_steps s mode) (hws : lookupA s.workers_for_step step = some ws) :
    has_passed_step s step mode =
      some (if ws.length = s.num_workers ∨ s.loaded_all_steps = true ∨
          (step : Int) ≤ s.last_complete_step
        then StepState.AVAILABLE else StepState.NOT_YET_AVAILABLE) := by
  unfold has_passed_step
  rw [bisect_left_mem (sorted_all_steps s mode) hmem]
  simp only [Nat.lt_irrefl, if_false, if_true, hws]
  by_cases h1 : ws.length = s.num_workers
  · simp [h1]
  · by_cases h2 : s.loaded_all_steps
    · simp [h1, h2]
    · by_cases h3 : (step : Int) ≤ s.last_complete_step
      · simp [h1, h2, h3]
      · simp [h1, h2, h3]

/-- Oracle verdict when the queried step was skipped (not known, but a
larger step is): branch 4 of §4.5. -/
theorem hps_of_skipped {s : TrialState} {step y : Nat} {mode : ModeKeys}
    (hnx : step ∉ _all_steps s mode) (hy : y ∈ _all_steps s mode) (hxy : step < y) :
    has_passed_step s step mode =
      some (if (step : Int) < s.last_complete_step
        then StepState.UNAVAILABLE else StepState.NOT_YET_AVAILABLE) := by
  obtain ⟨f, hf, hfx⟩ := bisect_left_skipped (sorted_all_steps s mode) hnx hy hxy
  unfold has_passed_step
  rw [hf]
  by_cases h : (step : Int) < s.last_complete_step
  · simp [hfx, h]
  · simp [hfx, h]

/-- Oracle verdict when the queried step is beyond everything known:
branch 3 of §4.5. -/
theorem hps_of_beyond {s : TrialState} {step : Nat} {mode : ModeKeys}
    (h : ∀ y ∈ _all_steps s mode, y < step) :
    has_passed_step s step mode =
      some (if s.loaded_all_steps
        then StepState.UNAVAILABLE else StepState.NOT_YET_AVAILABLE) := by
  unfold has_passed_step
  rw [bisect_left_beyond h]
  by_cases hl : s.loaded_all_steps <;> simp [hl]

theorem mem_all_steps_global (s : TrialState) (x : Nat) :
    x ∈ _all_steps s ModeKeys.GLOBAL ↔ x ∈ s._global_to_mode.map Prod.fst := by
  unfold _all_steps
  simp [(List.perm_insertionSort (· ≤ ·) (s._global_to_mode.map Prod.fst)).mem_iff]

/-! Concrete scenario states used by the claims' examples. -/

/-- A GLOBAL-mode eager record for tensor `"t"` at mode step `ms`. -/
def recGlobal (ms : Nat) : TensorRecord :=
  ⟨"t", ModeKeys.GLOBAL, ms, TensorPayload.value 7⟩

/-- Two expected workers; both report step 3. -/
def c4Both : TrialState :=
  add_tensor (add_tensor (initTrial ["w0", "w1"] 2 1000) 3 "w0" (recGlobal 3)) 3 "w1" (recGlobal 3)

/-- Two expected workers; only `w0` reports step 3. -/
def c4One : TrialState :=
  add_tensor (initTrial ["w0", "w1"] 2 1000) 3 "w0" (recGlobal 3)

/-- The single-report state after the job-ended marker is observed
(`maybe_refresh` latches). -/
def c4OneEnded : TrialState :=
  maybe_refresh c4One true [] none [] none

/-- One expected worker reports step 5 (watermark advances to 5); step 4 is
never observed. -/
def c5Passed : TrialState :=
  add_tensor (initTrial ["w0"] 1 1000) 5 "w0" (recGlobal 5)

/-- Two expected workers, only one reports step 5 (watermark stays -1);
step 4 is never observed. -/
def c5NotPassed : TrialState :=
  add_tensor (initTrial ["w0", "w1"] 2 1000) 5 "w0" (recGlobal 5)

/-- A job that ended with only steps 1 and 2 ever written (single worker;
the trial observed the end-of-job marker and latched). -/
def c3Ended : TrialState :=
  maybe_refresh
    (add_tensor (add_tensor (initTrial ["w0"] 1 1000) 1 "w0" (recGlobal 1)) 2 "w0" (recGlobal 2))
    true [] none [] none

/-- An unlatched-looking state where the oracle answers `NOT_YET_AVAILABLE`
for step 4 while `loaded_all_steps` is set: step 5 is known but written by
one of two workers and the watermark has not passed 4. -/
def c3NotYet : TrialState :=
  ⟨[], [], [(5, ModeKeys.GLOBAL, 5)], ["w0"], 2, [(5, ["w0"])], -1, 1000, true, true, none⟩

/-- C3, counterexample: with only steps 1 and 2 ever written and the job
ended, `wait_for_steps([1,2,3])` raises `StepUnavailable(3)` — not the
`NoMoreData` with last step 2 that the claim states: once the job has
ended, a step beyond everything known is `UNAVAILABLE`, and `wait_for_steps`
maps `UNAVAILABLE` to `StepUnavailable`. -/
theorem C3_wait_counterexample :
    c3Ended.loaded_all_steps = true ∧
    _all_steps c3Ended ModeKeys.GLOBAL = [1, 2] ∧
    wait_for_steps c3Ended [1, 2, 3] ModeKeys.GLOBAL =
      WaitOutcome.stepUnavailableErr 3 ModeKeys.GLOBAL ∧
    wait_for_steps c3Ended [1, 2, 3] ModeKeys.GLOBAL ≠
      WaitOutcome.noMoreDataErr 3 ModeKeys.GLOBAL 2 := by
  refine ⟨by decide, by decide, by decide, by decide⟩

/-- C3, amended: on the job that ended with only steps 1 and 2 written,
`wait_for_steps([1,2,3])` aborts with `StepUnavailable` for step 3 (the
requested step is beyond everything known and the job has ended, so the
oracle reports `UNAVAILABLE`); in general an `UNAVAILABLE` result aborts
the wait with `StepUnavailable`, and a `NOT_YET_AVAILABLE` result while
the job has ended aborts it with `NoMoreData` carrying the last known
step. -/
theorem C3_wait_aborts :
    (wait_for_steps c3Ended [1, 2, 3] ModeKeys.GLOBAL =
      WaitOutcome.stepUnavailableErr 3 ModeKeys.GLOBAL) ∧
    (∀ (s : TrialState) (step : Nat) (rest : List Nat) (mode : ModeKeys),
      (has_passed_step s step mode = some StepState.UNAVAILABLE →
        wait_for_steps s (step :: rest) mode = WaitOutcome.stepUnavailableErr step mode) ∧
      (has_passed_step s step mode = some StepState.NOT_YET_AVAILABLE →
        s.loaded_all_steps = true →
        wait_for_steps s (step :: rest) mode =
          WaitOutcome.noMoreDataErr step mode (lastStepOr (_all_steps s mode) (-1)))) := by
  refine ⟨by decide, fun s step rest mode => ⟨?_, ?_⟩⟩
  · intro h
    unfold wait_for_steps
    rw [h]
  · intro h hl
    unfold wait_for_steps
    rw [h]
    simp [hl]

/-- Witness for C3's amended statement: both abort rules applied at
concrete states. -/
theorem C3_wait_aborts_witness :
    wait_for_steps c3Ended [3] ModeKeys.GLOBAL =
      WaitOutcome.stepUnavailableErr 3 ModeKeys.GLOBAL ∧
    wait_for_steps c3NotYet [4] ModeKeys.GLOBAL =
      WaitOutcome.noMoreDataErr 4 ModeKeys.GLOBAL 5 := by
  constructor
  · exact (C3_wait_aborts.2 c3Ended 3 [] ModeKeys.GLOBAL).1 (by decide)
  · have h := (C3_wait_aborts.2 c3NotYet 4 [] ModeKeys.GLOBAL).2 (by decide) (by decide)
    rw [h]
    decide

/-- C4: when the queried step is among the known steps of the queried mode
(and, as in the source, has a worker entry), the oracle answers
`AVAILABLE` exactly when all expected workers reported it, or the job has
ended, or the watermark covers it, and `NOT_YET_AVAILABLE` otherwise; with
two expected workers, step 3 is `AVAILABLE` after both report, a single
report is `NOT_YET_AVAILABLE`, and the same single-report state becomes
`AVAILABLE` once the job-ended marker latches. -/
theorem C4_known_step_availability :
    (∀ (s : TrialState) (step : Nat) (mode : ModeKeys) (ws : List String),
      step ∈ _all_steps s mode →
      lookupA s.workers_for_step step = some ws →
      ((has_passed_step s step mode = some StepState.AVAILABLE ↔
          (ws.length = s.num_workers ∨ s.loaded_all_steps = true ∨
            (step : Int) ≤ s.last_complete_step)) ∧
        (has_passed_step s step mode = some StepState.NOT_YET_AVAILABLE ↔
          ¬(ws.length = s.num_workers ∨ s.loaded_all_steps = true ∨
            (step : Int) ≤ s.last_complete_step)))) ∧
    has_passed_step c4Both 3 ModeKeys.GLOBAL = some StepState.AVAILABLE ∧
    has_passed_step c4One 3 ModeKeys.GLOBAL = some StepState.NOT_YET_AVAILABLE ∧
    c4OneEnded.loaded_all_steps = true ∧
    has_passed_step c4OneEnded 3 ModeKeys.GLOBAL = some StepState.AVAILABLE := by
  refine ⟨fun s step mode ws hmem hws => ?_, by decide, by decide, by decide, by decide⟩
  rw [hps_of_mem hmem hws]
  by_cases h : ws.length = s.num_workers ∨ s.loaded_all_steps = true ∨
      (step : Int) ≤ s.last_complete_step
  · simp [h]
  · simp [h]

/-- Witness for C4's general rule at the two-worker state where both
workers reported step 3. -/
theorem C4_known_step_availability_witness :
    has_passed_step c4Both 3 ModeKeys.GLOBAL = some StepState.AVAILABLE := by
  have h := (C4_known_step_availability.1 c4Both 3 ModeKeys.GLOBAL ["w0", "w1"]
    (by decide) (by decide)).1
  exact h.mpr (Or.inl (by decide))

/-- C5: when the queried step was skipped (not known, but a larger step
is), the oracle answers `UNAVAILABLE` exactly when the watermark has
already passed the step, and `NOT_YET_AVAILABLE` otherwise; with step 5
observed and step 4 never observed, querying 4 is `UNAVAILABLE` when the
watermark passed 5 and `NOT_YET_AVAILABLE` when the watermark is still
behind. -/
theorem C5_skipped_step :
    (∀ (s : TrialState) (step y : Nat) (mode : ModeKeys),
      step ∉ _all_steps s mode → y ∈ _all_steps s mode → step < y →
      ((has_passed_step s step mode = some StepState.UNAVAILABLE ↔
          (step : Int) < s.last_complete_step) ∧
        (has_passed_step s step mode = some StepState.NOT_YET_AVAILABLE ↔
          ¬((step : Int) < s.last_complete_step)))) ∧
    c5Passed.last_complete_step = 5 ∧
    has_passed_step c5Passed 4 ModeKeys.GLOBAL = some StepState.UNAVAILABLE ∧
    c5NotPassed.last_complete_step = -1 ∧
    has_passed_step c5NotPassed 4 ModeKeys.GLOBAL = some StepState.NOT_YET_AVAILABLE := by
  refine ⟨fun s step y mode hnx hy hxy => ?_, by decide, by decide, by decide, by decide⟩
  rw [hps_of_skipped hnx hy hxy]
  by_cases h : (step : Int) < s.last_complete_step
  · simp [h]
  · simp [h]

/-- Witness for C5's general rule: step 4 skipped while step 5 is known and
the watermark is at 5. -/
theorem C5_skipped_step_witness :
    has_passed_step c5Passed 4 ModeKeys.GLOBAL = some StepState.UNAVAILABLE := by
  have h := (C5_skipped_step.1 c5Passed 4 5 ModeKeys.GLOBAL
    (by decide) (by decide) (by decide)).1
  exact h.mpr (by decide)

/-- C7: `maybe_refresh` is a no-op when the trial has latched or dynamic
refresh is off; with the job not ended it performs exactly one refresh;
when the job-end marker is observed it performs two refreshes (around the
configured sleep), then latches `loaded_all_steps` permanently, setting
the watermark to the maximum global step seen when steps exist and no
better watermark exists, and leaving it untouched when no step was ever
recorded; once latched, every further `maybe_refresh` is a no-op. -/
theorem C7_maybe_refresh_effects :
    (∀ (s : TrialState) (ended : Bool) (r1 : List AddRec) (t1 : Option IndexToken)
        (r2 : List AddRec) (t2 : Option IndexToken),
      s.loaded_all_steps = true ∨ s.dynamic_refresh = false →
      maybe_refresh s ended r1 t1 r2 t2 = s) ∧
    (∀ (s : TrialState) (r1 : List AddRec) (t1 : Option IndexToken)
        (r2 : List AddRec) (t2 : Option IndexToken),
      s.loaded_all_steps = false → s.dynamic_refresh = true →
      maybe_refresh s false r1 t1 r2 t2 = refresh_tensors s r1 t1) ∧
    (∀ (s : TrialState) (r1 : List AddRec) (t1 : Option IndexToken)
        (r2 : List AddRec) (t2 : Option IndexToken),
      s.loaded_all_steps = false → s.dynamic_refresh = true →
      ((maybe_refresh s true r1 t1 r2 t2).loaded_all_steps = true ∧
        (∃ lcs, maybe_refresh s true r1 t1 r2 t2 =
          { refresh_tensors (refresh_tensors s r1 t1) r2 t2 with
            loaded_all_steps := true, last_complete_step := lcs }) ∧
        ((refresh_tensors (refresh_tensors s r1 t1) r2 t2)._global_to_mode ≠ [] →
          (refresh_tensors (refresh_tensors s r1 t1) r2 t2).last_complete_step ≤
            (maxKeyG (refresh_tensors (refresh_tensors s r1 t1) r2 t2)._global_to_mode : Int) →
          (maybe_refresh s true r1 t1 r2 t2).last_complete_step =
            (maxKeyG (refresh_tensors (refresh_tensors s r1 t1) r2 t2)._global_to_mode : Int)) ∧
        ((refresh_tensors (refresh_tensors s r1 t1) r2 t2)._global_to_mode = [] →
          (maybe_refresh s true r1 t1 r2 t2).last_complete_step =
            (refresh_tensors (refresh_tensors s r1 t1) r2 t2).last_complete_step) ∧
        (∀ (ended' : Bool) (r1' : List AddRec) (t1' : Option IndexToken)
            (r2' : List AddRec) (t2' : Option IndexToken),
          maybe_refresh (maybe_refresh s true r1 t1 r2 t2) ended' r1' t1' r2' t2' =
            maybe_refresh s true r1 t1 r2 t2))) := by
  have hnoop : ∀ (s : TrialState) (ended : Bool) (r1 : List AddRec) (t1 : Option IndexToken)
      (r2 : List AddRec) (t2 : Option IndexToken),
      s.loaded_all_steps = true ∨ s.dynamic_refresh = false →
      maybe_refresh s ended r1 t1 r2 t2 = s := by
    intro s ended r1 t1 r2 t2 h
    unfold maybe_refresh
    rcases h with h | h <;> simp [h]
  refine ⟨hnoop, ?_, ?_⟩
  · intro s r1 t1 r2 t2 hl hd
    unfold maybe_refresh
    simp [hl, hd]
  · intro s r1 t1 r2 t2 hl hd
    have hrepr : maybe_refresh s true r1 t1 r2 t2 =
        { refresh_tensors (refresh_tensors s r1 t1) r2 t2 with
          loaded_all_steps := true,
          last_complete_step := if (refresh_tensors (refresh_tensors s r1 t1) r2 t2)._global_to_mode.length ≠ 0 then ((maxKeyG (refresh_tensors (refresh_tensors s r1 t1) r2 t2)._global_to_mode : Int)) else (refresh_tensors (refresh_tensors s r1 t1) r2 t2).last_complete_step } := by
      unfold maybe_refresh
      simp [hl, hd]
    refine ⟨?_, ⟨_, hrepr⟩, ?_, ?_, ?_⟩
    · rw [hrepr]
    · intro hne _
      rw [hrepr]
      simp [List.length_eq_zero, hne]
    · intro hem
      rw [hrepr]
      simp [hem]
    · intro ended' r1' t1' r2' t2'
      apply hnoop
      left
      rw [hrepr]

/-- Witness for C7 at concrete inputs: the latched state is a fixed point
of `maybe_refresh`, the unlatched empty trial refreshes once when the job
has not ended, and the job-end path latches. -/
theorem C7_maybe_refresh_effects_witness :
    maybe_refresh c3Ended true [] none [] none = c3Ended ∧
    maybe_refresh (initTrial ["w0"] 1 1000) false [] none [] none =
      refresh_tensors (initTrial ["w0"] 1 1000) [] none ∧
    (maybe_refresh (initTrial ["w0"] 1 1000) true [] none [] none).loaded_all_steps = true := by
  refine ⟨?_, ?_, ?_⟩
  · exact C7_maybe_refresh_effects.1 c3Ended true [] none [] none (Or.inl (by decide))
  · exact C7_maybe_refresh_effects.2.1 (initTrial ["w0"] 1 1000) [] none [] none
      (by decide) (by decide)
  · exact ((C7_maybe_refresh_effects.2.2 (initTrial ["w0"] 1 1000) [] none [] none
      (by decide) (by decide))).1

/-- `catchUpState` never touches any field but the cursor token. -/
theorem catchUp_frame (s : TrialState) (tok : IndexToken) :
    (catchUpState s tok)._tensors = s._tensors ∧
    (catchUpState s tok)._mode_to_global = s._mode_to_global ∧
    (catchUpState s tok)._global_to_mode = s._global_to_mode ∧
    (catchUpState s tok).worker_set = s.worker_set ∧
    (catchUpState s tok).num_workers = s.num_workers ∧
    (catchUpState s tok).workers_for_step = s.workers_for_step ∧
    (catchUpState s tok).last_complete_step = s.last_complete_step ∧
    (catchUpState s tok).incomplete_wait_for_step_window = s.incomplete_wait_for_step_window ∧
    (catchUpState s tok).loaded_all_steps = s.loaded_all_steps ∧
    (catchUpState s tok).dynamic_refresh = s.dynamic_refresh := by
  unfold catchUpState
  split_ifs with h
  · cases hE : lastWorker s.worker_set <;>
      exact ⟨rfl, rfl, rfl, rfl, rfl, rfl, rfl, rfl, rfl, rfl⟩
  · exact ⟨rfl, rfl, rfl, rfl, rfl, rfl, rfl, rfl, rfl, rfl⟩

theorem catchUp_g2m (s : TrialState) (tok : IndexToken) :
    (catchUpState s tok)._global_to_mode = s._global_to_mode :=
  (catchUp_frame s tok).2.2.1

theorem catchUp_wset (s : TrialState) (tok : IndexToken) :
    (catchUpState s tok).worker_set = s.worker_set :=
  (catchUp_frame s tok).2.2.2.1

theorem catchUp_lcs (s : TrialState) (tok : IndexToken) :
    (catchUpState s tok).last_complete_step = s.last_complete_step :=
  (catchUp_frame s tok).2.2.2.2.2.2.1

theorem catchUp_window (s : TrialState) (tok : IndexToken) :
    (catchUpState s tok).incomplete_wait_for_step_window =
      s.incomplete_wait_for_step_window :=
  (catchUp_frame s tok).2.2.2.2.2.2.2.1

theorem catchUp_not_fired (s : TrialState) (tok : IndexToken)
    (h : ¬last_index_token_step s < s.last_complete_step) : catchUpState s tok = s := by
  unfold catchUpState
  rw [if_neg h]

theorem catchUp_fired (s : TrialState) (tok : IndexToken) (w : String)
    (hw : lastWorker s.worker_set = some w)
    (h : last_index_token_step s < s.last_complete_step) :
    catchUpState s tok =
      { s with last_index_token := some (get_index_key_for_step
          (get_prefix_from_index_file tok)
          s.last_complete_step (serialize_tf_device w)) } := by
  unfold catchUpState
  rw [if_pos h, hw]

theorem windowForce_not_fired (s1 : TrialState) (tok : IndexToken)
    (h : ¬(s1.incomplete_wait_for_step_window : Int) <
      (s1._global_to_mode.length : Int) - (s1.last_complete_step + 1)) :
    windowForceState s1 tok = s1 := by
  unfold windowForceState
  rw [if_neg h]

theorem windowForce_fired (s1 : TrialState) (tok : IndexToken) (w : String)
    (hw : lastWorker s1.worker_set = some w)
    (h : (s1.incomplete_wait_for_step_window : Int) <
      (s1._global_to_mode.length : Int) - (s1.last_complete_step + 1)) :
    windowForceState s1 tok =
      { s1 with
        last_index_token := some (get_index_key_for_step (get_prefix_from_index_file tok)
          (s1.last_complete_step + ((s1.incomplete_wait_for_step_window / 2 : Nat) : Int))
          (serialize_tf_device w)),
        last_complete_step := s1.last_complete_step +
          ((s1.incomplete_wait_for_step_window / 2 : Nat) : Int) } := by
  unfold windowForceState
  rw [if_pos h, hw]
  rfl

/-- C9: after a reconciliation pass that yields a non-empty new index
token, if the watermark exceeds the step encoded in the current cursor
token (0 when no token exists), the cursor ends up rewritten to the index
key for the (resulting) watermark step, anchored at the lexicographically
last known worker name, serialized. -/
theorem C9_cursor_catch_up (s : TrialState) (tok : IndexToken) (w : String)
    (hw : lastWorker s.worker_set = some w)
    (hcatch : last_index_token_step s < s.last_complete_step) :
    (_update_last_index_token s tok).last_index_token =
      some (get_index_key_for_step (get_prefix_from_index_file tok)
        (_update_last_index_token s tok).last_complete_step (serialize_tf_device w)) := by
  have hw1 : lastWorker (catchUpState s tok).worker_set = some w := by
    rw [catchUp_wset]
    exact hw
  unfold _update_last_index_token
  by_cases hwin : ((s.incomplete_wait_for_step_window : Int) <
      (s._global_to_mode.length : Int) - (s.last_complete_step + 1))
  · have hwin1 : ((catchUpState s tok).incomplete_wait_for_step_window : Int) <
        ((catchUpState s tok)._global_to_mode.length : Int) -
          ((catchUpState s tok).last_complete_step + 1) := by
      rw [catchUp_window, catchUp_g2m, catchUp_lcs]
      exact hwin
    rw [windowForce_fired (catchUpState s tok) tok w hw1 hwin1]
  · have hwin1 : ¬((catchUpState s tok).incomplete_wait_for_step_window : Int) <
        ((catchUpState s tok)._global_to_mode.length : Int) -
          ((catchUpState s tok).last_complete_step + 1) := by
      rw [catchUp_window, catchUp_g2m, catchUp_lcs]
      exact hwin
    rw [windowForce_not_fired (catchUpState s tok) tok hwin1,
      catchUp_fired s tok w hw hcatch]

/-- Witness for C9: a state with watermark 7 and a stale cursor at step 0
gets its cursor rewritten to step 7 anchored at worker `w1`. -/
theorem C9_cursor_catch_up_witness :
    (_update_last_index_token
        ⟨[], [], [(7, ModeKeys.GLOBAL, 7)], ["w0", "w1"], 1, [(7, ["w0"])], 7, 1000, false,
          true, none⟩
        ⟨"pfx", 9, "wx"⟩).last_index_token =
      some (get_index_key_for_step "pfx" 7 "w1") := by
  have h := C9_cursor_catch_up
    ⟨[], [], [(7, ModeKeys.GLOBAL, 7)], ["w0", "w1"], 1, [(7, ["w0"])], 7, 1000, false,
      true, none⟩
    ⟨"pfx", 9, "wx"⟩ "w1" (by decide) (by decide)
  rw [h]
  decide

/-- Window limit 10, two expected workers, steps 0..14 each written by only
one worker: 15 distinct known steps, watermark still -1, so
15 - (-1 + 1) = 15 outstanding incomplete steps. -/
def c6Before : TrialState :=
  (List.range 15).foldl (fun st n => add_tensor st n "w0" (recGlobal n)) (initTrial ["w0", "w1"] 2 10)

/-- The state after one refresh cycle returned a new index token. -/
def c6After : TrialState :=
  _update_last_index_token c6Before ⟨"pfx", 99, "w9"⟩

/-- C6: when a refresh yields a non-empty new index token and the count of
distinct known steps minus (watermark + 1) exceeds the window limit, the
watermark advances by exactly half the window limit and the cursor is
rewritten at that forced watermark step; with window 10 and 15 outstanding
incomplete steps one cycle advances the watermark from -1 to 4, and known
steps at or below the new watermark then report `AVAILABLE` although only
one of the two expected workers ever confirmed them. -/
theorem C6_window_force_advance :
    (∀ (s : TrialState) (tok : IndexToken) (w : String),
      lastWorker s.worker_set = some w →
      (s.incomplete_wait_for_step_window : Int) <
        (s._global_to_mode.length : Int) - (s.last_complete_step + 1) →
      (_update_last_index_token s tok).last_complete_step =
        s.last_complete_step + ((s.incomplete_wait_for_step_window / 2 : Nat) : Int) ∧
      (_update_last_index_token s tok).last_index_token =
        some (get_index_key_for_step (get_prefix_from_index_file tok)
          (s.last_complete_step + ((s.incomplete_wait_for_step_window / 2 : Nat) : Int))
          (serialize_tf_device w))) ∧
    c6Before.last_complete_step = -1 ∧
    c6Before._global_to_mode.length = 15 ∧
    c6Before.incomplete_wait_for_step_window = 10 ∧
    c6After.last_complete_step = 4 ∧
    c6After.last_index_token = some ⟨"pfx", 4, "w1"⟩ ∧
    (lookupA c6After.workers_for_step 3 = some ["w0"] ∧ c6After.num_workers = 2 ∧
      c6After.loaded_all_steps = false ∧
      has_passed_step c6After 3 ModeKeys.GLOBAL = some StepState.AVAILABLE ∧
      has_passed_step c6After 4 ModeKeys.GLOBAL = some StepState.AVAILABLE ∧
      has_passed_step c6After 5 ModeKeys.GLOBAL = some StepState.NOT_YET_AVAILABLE) := by
  refine ⟨fun s tok w hw hwin => ?_, by decide, by decide, by decide, by decide, by decide,
    by decide, by decide, by decide, by decide, by decide, by decide⟩
  have hw1 : lastWorker (catchUpState s tok).worker_set = some w := by
    rw [catchUp_wset]
    exact hw
  have hwin1 : ((catchUpState s tok).incomplete_wait_for_step_window : Int) <
      ((catchUpState s tok)._global_to_mode.length : Int) -
        ((catchUpState s tok).last_complete_step + 1) := by
    rw [catchUp_window, catchUp_g2m, catchUp_lcs]
    exact hwin
  unfold _update_last_index_token
  rw [windowForce_fired (catchUpState s tok) tok w hw1 hwin1]
  rw [catchUp_lcs, catchUp_window]
  exact ⟨rfl, rfl⟩

/-- Witness for C6's general rule at the window-10 scenario state. -/
theorem C6_window_force_advance_witness :
    (_update_last_index_token c6Before ⟨"pfx", 99, "w9"⟩).last_complete_step = 4 ∧
    (_update_last_index_token c6Before ⟨"pfx", 99, "w9"⟩).last_index_token =
      some (get_index_key_for_step "pfx" 4 "w1") := by
  have h := C6_window_force_advance.1 c6Before ⟨"pfx", 99, "w9"⟩ "w1" (by decide) (by decide)
  constructor
  · rw [h.1]
    decide
  · rw [h.2]
    decide

/-! Watermark monotonicity (C2): the invariant and per-operation lemmas. -/

theorem le_foldl_max (l : List Nat) (a : Nat) : a ≤ l.foldl max a := by
  induction l generalizing a with
  | nil => exact le_refl a
  | cons b l ih => exact le_trans (le_max_left a b) (ih (max a b))

theorem mem_le_foldl_max (l : List Nat) (a x : Nat) (h : x ∈ l) : x ≤ l.foldl max a := by
  induction l generalizing a with
  | nil => cases h
  | cons b l ih =>
    rcases List.mem_cons.mp h with rfl | h2
    · exact le_trans (le_max_right a x) (le_foldl_max l (max a x))
    · exact ih (max a b) h2

theorem maxKeyG_append (l : List (Nat × ModeKeys × Nat)) (e : Nat × ModeKeys × Nat) :
    maxKeyG (l ++ [e]) = max (maxKeyG l) e.1 := by
  unfold maxKeyG
  rw [List.map_append, List.foldl_append]
  rfl

theorem le_maxKeyG_of_mem {l : List (Nat × ModeKeys × Nat)} {k : Nat}
    (h : k ∈ l.map Prod.fst) : k ≤ maxKeyG l :=
  mem_le_foldl_max (l.map Prod.fst) 0 k h

/-- Nodup keys bound the key count by the largest key plus one. -/
theorem length_le_maxKeyG_succ (l : List (Nat × ModeKeys × Nat))
    (h : (l.map Prod.fst).Nodup) : l.length ≤ maxKeyG l + 1 := by
  have hcard : (l.map Prod.fst).toFinset.card = l.length := by
    rw [List.toFinset_card_of_nodup h, List.length_map]
  have hsub : (l.map Prod.fst).toFinset ⊆ Finset.range (maxKeyG l + 1) := by
    intro x hx
    rw [Finset.mem_range]
    exact Nat.lt_succ_of_le (le_maxKeyG_of_mem (List.mem_toFinset.mp hx))
  calc l.length = (l.map Prod.fst).toFinset.card := hcard.symm
    _ ≤ (Finset.range (maxKeyG l + 1)).card := Finset.card_le_card hsub
    _ = maxKeyG l + 1 := Finset.card_range _

/-- The watermark invariant every reachable `TrialState` satisfies: global
step keys are distinct, the watermark is -1 while no step is known, and
otherwise never exceeds the largest known global step. -/
def WatermarkInv (s : TrialState) : Prop :=
  (s._global_to_mode.map Prod.fst).Nodup ∧
  (s._global_to_mode = [] → s.last_complete_step = -1) ∧
  (s._global_to_mode ≠ [] → s.last_complete_step ≤ (maxKeyG s._global_to_mode : Int))

theorem watermarkInv_init (workers : List String) (nw window : Nat) :
    WatermarkInv (initTrial workers nw window) :=
  ⟨List.nodup_nil, fun _ => rfl, fun h => absurd rfl h⟩

theorem psd_lcs (s : TrialState) (tObj : TensorRecord) (n : Nat) :
    (_populate_step_dict s tObj n).last_complete_step = s.last_complete_step := rfl

theorem psd_workers (s : TrialState) (tObj : TensorRecord) (n : Nat) :
    (_populate_step_dict s tObj n).workers_for_step = s.workers_for_step := rfl

theorem psd_num (s : TrialState) (tObj : TensorRecord) (n : Nat) :
    (_populate_step_dict s tObj n).num_workers = s.num_workers := rfl

theorem psd_g2m (s : TrialState) (tObj : TensorRecord) (n : Nat) :
    (_populate_step_dict s tObj n)._global_to_mode =
      (if (lookupA s._global_to_mode n).isNone
        then s._global_to_mode ++ [(n, tObj.mode, tObj.mode_step)]
        else s._global_to_mode) := rfl

theorem addHist_frame (s : TrialState) (w : String) (tObj : TensorRecord) :
    (addHistEntry s w tObj)._mode_to_global = s._mode_to_global ∧
    (addHistEntry s w tObj)._global_to_mode = s._global_to_mode ∧
    (addHistEntry s w tObj).worker_set = s.worker_set ∧
    (addHistEntry s w tObj).num_workers = s.num_workers ∧
    (addHistEntry s w tObj).workers_for_step = s.workers_for_step ∧
    (addHistEntry s w tObj).last_complete_step = s.last_complete_step ∧
    (addHistEntry s w tObj).incomplete_wait_for_step_window =
      s.incomplete_wait_for_step_window ∧
    (addHistEntry s w tObj).loaded_all_steps = s.loaded_all_steps ∧
    (addHistEntry s w tObj).dynamic_refresh = s.dynamic_refresh ∧
    (addHistEntry s w tObj).last_index_token = s.last_index_token :=
  ⟨rfl, rfl, rfl, rfl, rfl, rfl, rfl, rfl, rfl, rfl⟩

theorem pwfs_g2m (s : TrialState) (step : Nat) (w : String) :
    (_populate_workers_for_step s step w)._global_to_mode = s._global_to_mode := by
  unfold _populate_workers_for_step
  split_ifs <;> rfl

theorem pwfs_lcs (s : TrialState) (step : Nat) (w : String) :
    (_populate_workers_for_step s step w).last_complete_step = s.last_complete_step ∨
    ((_populate_workers_for_step s step w).last_complete_step = (step : Int) ∧
      s.last_complete_step < (step : Int)) := by
  unfold _populate_workers_for_step
  split_ifs with h
  · exact Or.inr ⟨rfl, h.2⟩
  · exact Or.inl rfl

theorem pwfs_lcs_mono (s : TrialState) (step : Nat) (w : String) :
    s.last_complete_step ≤ (_populate_workers_for_step s step w).last_complete_step := by
  rcases pwfs_lcs s step w with h | h
  · rw [h]
  · rw [h.1]
    exact le_of_lt h.2

theorem add_tensor_g2m (s : TrialState) (step : Nat) (w : String) (tObj : TensorRecord) :
    (add_tensor s step w tObj)._global_to_mode =
      (if (lookupA s._global_to_mode step).isNone
        then s._global_to_mode ++ [(step, tObj.mode, tObj.mode_step)]
        else s._global_to_mode) := by
  unfold add_tensor
  rw [(addHist_frame _ _ _).2.1, pwfs_g2m, psd_g2m]
  rfl

theorem add_tensor_lcs_cases (s : TrialState) (step : Nat) (w : String) (tObj : TensorRecord) :
    (add_tensor s step w tObj).last_complete_step = s.last_complete_step ∨
    ((add_tensor s step w tObj).last_complete_step = (step : Int) ∧
      s.last_complete_step < (step : Int)) := by
  unfold add_tensor
  rw [(addHist_frame _ _ _).2.2.2.2.2.1]
  have h := pwfs_lcs (_populate_step_dict (addTensorEntry s tObj) tObj step) step w
  rw [psd_lcs] at h
  exact h

theorem add_tensor_lcs_mono (s : TrialState) (step : Nat) (w : String) (tObj : TensorRecord) :
    s.last_complete_step ≤ (add_tensor s step w tObj).last_complete_step := by
  rcases add_tensor_lcs_cases s step w tObj with h | h
  · rw [h]
  · rw [h.1]
    exact le_of_lt h.2

/-- The step fed to `add_tensor` is a known global step afterwards. -/
theorem add_tensor_step_mem (s : TrialState) (step : Nat) (w : String) (tObj : TensorRecord) :
    step ∈ (add_tensor s step w tObj)._global_to_mode.map Prod.fst := by
  rw [add_tensor_g2m]
  by_cases h : (lookupA s._global_to_mode step).isNone
  · simp [h]
  · rw [if_neg h]
    have hnn : lookupA s._global_to_mode step ≠ none := by
      intro hc
      exact h (by simp [hc])
    by_contra hmem
    exact hnn ((lookupA_eq_none_iff _ _).mpr hmem)

theorem add_tensor_inv (s : TrialState) (step : Nat) (w : String) (tObj : TensorRecord)
    (h : WatermarkInv s) : WatermarkInv (add_tensor s step w tObj) := by
  obtain ⟨hnd, hemp, hne⟩ := h
  have hg := add_tensor_g2m s step w tObj
  have hmax_le : (maxKeyG s._global_to_mode : Int) ≤
      (maxKeyG (add_tensor s step w tObj)._global_to_mode : Int) := by
    rw [hg]
    by_cases hl : (lookupA s._global_to_mode step).isNone
    · rw [if_pos hl, maxKeyG_append]
      exact_mod_cast le_max_left _ _
    · rw [if_neg hl]
  refine ⟨?_, ?_, ?_⟩
  · rw [hg]
    by_cases hl : (lookupA s._global_to_mode step).isNone
    · rw [if_pos hl]
      have hstep : step ∉ s._global_to_mode.map Prod.fst := by
        rw [← lookupA_eq_none_iff s._global_to_mode step]
        exact Option.isNone_iff_eq_none.mp hl
      rw [List.map_append]
      simp [List.nodup_append, hnd, hstep]
    · rw [if_neg hl]
      exact hnd
  · intro he
    rw [hg] at he
    by_cases hl : (lookupA s._global_to_mode step).isNone
    · rw [if_pos hl] at he
      simp at he
    · rw [if_neg hl] at he
      rw [he] at hl
      simp [lookupA] at hl
  · intro _
    rcases add_tensor_lcs_cases s step w tObj with hc | hc
    · rw [hc]
      by_cases hsem : s._global_to_mode = []
      · rw [hemp hsem]
        have hge : (0 : Int) ≤ (maxKeyG (add_tensor s step w tObj)._global_to_mode : Int) :=
          Int.ofNat_nonneg _
        omega
      · exact le_trans (hne hsem) hmax_le
    · rw [hc.1]
      exact_mod_cast le_maxKeyG_of_mem (add_tensor_step_mem s step w tObj)

theorem windowForce_inv_mono (s1 : TrialState) (tok : IndexToken) (h : WatermarkInv s1) :
    WatermarkInv (windowForceState s1 tok) ∧
    s1.last_complete_step ≤ (windowForceState s1 tok).last_complete_step := by
  obtain ⟨hnd, hemp, hne⟩ := h
  by_cases hc : ((s1.incomplete_wait_for_step_window : Int) <
      (s1._global_to_mode.length : Int) - (s1.last_complete_step + 1))
  · cases hlw : lastWorker s1.worker_set with
    | none =>
      have heq : windowForceState s1 tok = s1 := by
        unfold windowForceState
        rw [if_pos hc, hlw]
      rw [heq]
      exact ⟨⟨hnd, hemp, hne⟩, le_refl _⟩
    | some w =>
      rw [windowForce_fired s1 tok w hlw hc]
      have hw2 : ((s1.incomplete_wait_for_step_window / 2 : Nat) : Int) ≤
          (s1.incomplete_wait_for_step_window : Int) := by
        exact_mod_cast Nat.div_le_self _ _
      have hw2n : (0 : Int) ≤ ((s1.incomplete_wait_for_step_window / 2 : Nat) : Int) :=
        Int.ofNat_nonneg _
      unfold WatermarkInv
      dsimp only
      refine ⟨⟨hnd, ?_, ?_⟩, ?_⟩
      · intro he
        exfalso
        have hl0 := hemp he
        rw [he] at hc
        simp at hc
        omega
      · intro hne'
        have hlen : (s1._global_to_mode.length : Int) ≤ (maxKeyG s1._global_to_mode : Int) + 1 := by
          exact_mod_cast length_le_maxKeyG_succ s1._global_to_mode hnd
        omega
      · omega
  · rw [windowForce_not_fired s1 tok hc]
    exact ⟨⟨hnd, hemp, hne⟩, le_refl _⟩

theorem update_inv_mono (s : TrialState) (tok : IndexToken) (h : WatermarkInv s) :
    WatermarkInv (_update_last_index_token s tok) ∧
    s.last_complete_step ≤ (_update_last_index_token s tok).last_complete_step := by
  have hinv1 : WatermarkInv (catchUpState s tok) := by
    unfold WatermarkInv
    rw [catchUp_g2m, catchUp_lcs]
    exact h
  have hmain := windowForce_inv_mono (catchUpState s tok) tok hinv1
  unfold _update_last_index_token
  refine ⟨hmain.1, ?_⟩
  calc s.last_complete_step = (catchUpState s tok).last_complete_step := (catchUp_lcs s tok).symm
    _ ≤ _ := hmain.2

theorem refresh_tensors_none (s : TrialState) (recs : List AddRec) :
    refresh_tensors s recs none =
      recs.foldl (fun st r => add_tensor st r.step r.worker r.record) s := rfl

theorem refresh_tensors_some (s : TrialState) (recs : List AddRec) (t : IndexToken) :
    refresh_tensors s recs (some t) =
      _update_last_index_token
        (recs.foldl (fun st r => add_tensor st r.step r.worker r.record) s) t := rfl

theorem addRec_foldl_inv_mono (recs : List AddRec) (s : TrialState) (h : WatermarkInv s) :
    WatermarkInv (recs.foldl (fun st r => add_tensor st r.step r.worker r.record) s) ∧
    s.last_complete_step ≤
      (recs.foldl (fun st r => add_tensor st r.step r.worker r.record) s).last_complete_step := by
  induction recs generalizing s with
  | nil => exact ⟨h, le_refl _⟩
  | cons r rest ih =>
    have h1 := add_tensor_inv s r.step r.worker r.record h
    have h2 := ih (add_tensor s r.step r.worker r.record) h1
    exact ⟨h2.1, le_trans (add_tensor_lcs_mono s r.step r.worker r.record) h2.2⟩

theorem refresh_inv_mono (s : TrialState) (recs : List AddRec) (tok : Option IndexToken)
    (h : WatermarkInv s) :
    WatermarkInv (refresh_tensors s recs tok) ∧
    s.last_complete_step ≤ (refresh_tensors s recs tok).last_complete_step := by
  cases tok with
  | none =>
    rw [refresh_tensors_none]
    exact addRec_foldl_inv_mono recs s h
  | some t =>
    rw [refresh_tensors_some]
    have h1 := addRec_foldl_inv_mono recs s h
    have h2 := update_inv_mono _ t h1.1
    exact ⟨h2.1, le_trans h1.2 h2.2⟩

/-- The three shapes a `maybe_refresh` call can take: no-op, single
refresh, or double refresh plus the end-of-job latch. -/
theorem maybe_refresh_cases (s : TrialState) (ended : Bool) (r1 : List AddRec)
    (t1 : Option IndexToken) (r2 : List AddRec) (t2 : Option IndexToken) :
    maybe_refresh s ended r1 t1 r2 t2 = s ∨
    maybe_refresh s ended r1 t1 r2 t2 = refresh_tensors s r1 t1 ∨
    maybe_refresh s ended r1 t1 r2 t2 =
      { refresh_tensors (refresh_tensors s r1 t1) r2 t2 with
        loaded_all_steps := true,
        last_complete_step := if (refresh_tensors (refresh_tensors s r1 t1) r2 t2)._global_to_mode.length ≠ 0 then ((maxKeyG (refresh_tensors (refresh_tensors s r1 t1) r2 t2)._global_to_mode : Int)) else (refresh_tensors (refresh_tensors s r1 t1) r2 t2).last_complete_step } := by
  unfold maybe_refresh
  by_cases hg : (s.loaded_all_steps || !s.dynamic_refresh) = true
  · rw [if_pos hg]
    exact Or.inl rfl
  · rw [if_neg hg]
    cases ended
    · exact Or.inr (Or.inl rfl)
    · exact Or.inr (Or.inr rfl)

theorem maybe_refresh_inv_mono (s : TrialState) (ended : Bool) (r1 : List AddRec)
    (t1 : Option IndexToken) (r2 : List AddRec) (t2 : Option IndexToken)
    (h : WatermarkInv s) :
    WatermarkInv (maybe_refresh s ended r1 t1 r2 t2) ∧
    s.last_complete_step ≤ (maybe_refresh s ended r1 t1 r2 t2).last_complete_step := by
  rcases maybe_refresh_cases s ended r1 t1 r2 t2 with hc | hc | hc
  · rw [hc]
    exact ⟨h, le_refl _⟩
  · rw [hc]
    exact refresh_inv_mono s r1 t1 h
  · rw [hc]
    have h1 := refresh_inv_mono s r1 t1 h
    have h2 := refresh_inv_mono (refresh_tensors s r1 t1) r2 t2 h1.1
    obtain ⟨hnd2, hemp2, hne2⟩ := h2.1
    unfold WatermarkInv
    dsimp only
    by_cases hlen : (refresh_tensors (refresh_tensors s r1 t1) r2 t2)._global_to_mode.length ≠ 0
    · have hnee : (refresh_tensors (refresh_tensors s r1 t1) r2 t2)._global_to_mode ≠ [] := by
        intro hcc
        exact hlen (by rw [hcc]; rfl)
      rw [if_pos hlen]
      refine ⟨⟨hnd2, ?_, ?_⟩, ?_⟩
      · intro he
        exact absurd he hnee
      · intro _
        exact le_refl _
      · exact le_trans (le_trans h1.2 h2.2) (hne2 hnee)
    · have hee : (refresh_tensors (refresh_tensors s r1 t1) r2 t2)._global_to_mode = [] :=
        List.length_eq_zero.mp (by omega)
      rw [if_neg hlen]
      refine ⟨⟨hnd2, ?_, ?_⟩, ?_⟩
      · intro _
        exact hemp2 hee
      · intro hcc
        exact absurd hee hcc
      · exact le_trans h1.2 h2.2

theorem applyOp_inv_mono (s : TrialState) (op : TrialOp) (h : WatermarkInv s) :
    WatermarkInv (applyOp s op) ∧ s.last_complete_step ≤ (applyOp s op).last_complete_step := by
  cases op with
  | add step worker record =>
    exact ⟨add_tensor_inv s step worker record h, add_tensor_lcs_mono s step worker record⟩
  | update tok => exact update_inv_mono s tok h
  | refreshT recs tok => exact refresh_inv_mono s recs tok h
  | maybeR ended r1 t1 r2 t2 => exact maybe_refresh_inv_mono s ended r1 t1 r2 t2 h

theorem applyOps_inv_mono (ops : List TrialOp) (s : TrialState) (h : WatermarkInv s) :
    WatermarkInv (applyOps s ops) ∧
    s.last_complete_step ≤ (applyOps s ops).last_complete_step := by
  induction ops generalizing s with
  | nil => exact ⟨h, le_refl _⟩
  | cons op rest ih =>
    have h1 := applyOp_inv_mono s op h
    have h2 := ih (applyOp s op) h1.1
    exact ⟨h2.1, le_trans h1.2 h2.2⟩

/-- C2: starting from its initial value -1, the completion watermark
`last_complete_step` never decreases across any sequence of `Trial`
operations — `add_tensor` worker-completion recording, the cursor rules
with their windowing force-advance, plain refreshes, and `maybe_refresh`
with its end-of-job latch. -/
theorem C2_watermark_monotone (workers : List String) (nw window : Nat)
    (ops tail : List TrialOp) :
    (initTrial workers nw window).last_complete_step = -1 ∧
    (applyOps (initTrial workers nw window) ops).last_complete_step ≤
      (applyOps (initTrial workers nw window) (ops ++ tail)).last_complete_step := by
  refine ⟨rfl, ?_⟩
  have h1 := applyOps_inv_mono ops (initTrial workers nw window)
    (watermarkInv_init workers nw window)
  have h2 := applyOps_inv_mono tail (applyOps (initTrial workers nw window) ops) h1.1
  have happ : applyOps (initTrial workers nw window) (ops ++ tail) =
      applyOps (applyOps (initTrial workers nw window) ops) tail := by
    unfold applyOps
    rw [List.foldl_append]
  rw [happ]
  exact h2.2

/-! C1: the step-map round trip. -/

theorem lookupA_append_left {α β : Type} [DecidableEq α] (l₁ l₂ : List (α × β)) (a : α) (v : β)
    (h : lookupA l₁ a = some v) : lookupA (l₁ ++ l₂) a = some v := by
  rw [lookupA_append, h]

theorem lookupA_append_rightmost {α β : Type} [DecidableEq α] (l : List (α × β)) (a : α) (v : β)
    (h : lookupA l a = none) : lookupA (l ++ [(a, v)]) a = some v := by
  rw [lookupA_append, h]
  simp [lookupA]

theorem lookupA_append_single_ne {α β : Type} [DecidableEq α] (l : List (α × β)) (k a : α)
    (v : β) (h : k ≠ a) : lookupA (l ++ [(k, v)]) a = lookupA l a := by
  rw [lookupA_append]
  cases hc : lookupA l a with
  | none => simp [lookupA, h]
  | some w => rfl

/-- One `add_tensor` call as a trace element: its
(global step, mode, mode-step) triple. -/
def tripOf (r : AddRec) : Nat × ModeKeys × Nat := (r.step, r.record.mode, r.record.mode_step)

/-- A sequence of `add_tensor` calls applied in order. -/
def applyAdds (s : TrialState) (calls : List AddRec) : TrialState :=
  calls.foldl (fun st r => add_tensor st r.step r.worker r.record) s

theorem pwfs_m2g (s : TrialState) (step : Nat) (w : String) :
    (_populate_workers_for_step s step w)._mode_to_global = s._mode_to_global := by
  unfold _populate_workers_for_step
  split_ifs <;> rfl

theorem psd_m2g (s : TrialState) (tObj : TensorRecord) (n : Nat) :
    (_populate_step_dict s tObj n)._mode_to_global =
      (if tObj.mode ≠ ModeKeys.GLOBAL then
        match lookupA s._mode_to_global tObj.mode with
        | none => s._mode_to_global ++ [(tObj.mode, [(tObj.mode_step, n)])]
        | some inner =>
          if (lookupA inner tObj.mode_step).isNone then
            updateA s._mode_to_global tObj.mode (inner ++ [(tObj.mode_step, n)])
          else s._mode_to_global
      else s._mode_to_global) := rfl

theorem add_tensor_m2g (s : TrialState) (step : Nat) (w : String) (tObj : TensorRecord) :
    (add_tensor s step w tObj)._mode_to_global =
      (if tObj.mode ≠ ModeKeys.GLOBAL then
        match lookupA s._mode_to_global tObj.mode with
        | none => s._mode_to_global ++ [(tObj.mode, [(tObj.mode_step, step)])]
        | some inner =>
          if (lookupA inner tObj.mode_step).isNone then
            updateA s._mode_to_global tObj.mode (inner ++ [(tObj.mode_step, step)])
          else s._mode_to_global
      else s._mode_to_global) := by
  unfold add_tensor
  rw [(addHist_frame _ _ _).1, pwfs_m2g]
  rfl

/-- The step maps are sound and complete for the processed trace: every map
entry comes from a processed call, and every processed call is reflected in
both maps (the mode map only for non-GLOBAL modes). -/
def StepDictSound (s : TrialState) (tr : List (Nat × ModeKeys × Nat)) : Prop :=
  (∀ g m ms, lookupA s._global_to_mode g = some (m, ms) → (g, m, ms) ∈ tr) ∧
  (∀ m inner ms g, lookupA s._mode_to_global m = some inner →
    lookupA inner ms = some g → (g, m, ms) ∈ tr ∧ m ≠ ModeKeys.GLOBAL) ∧
  (∀ t ∈ tr, (lookupA s._global_to_mode t.1).isSome) ∧
  (∀ t ∈ tr, t.2.1 ≠ ModeKeys.GLOBAL →
    ∃ inner, lookupA s._mode_to_global t.2.1 = some inner ∧ (lookupA inner t.2.2).isSome)

theorem stepDictSound_init (workers : List String) (nw window : Nat) :
    StepDictSound (initTrial workers nw window) [] := by
  refine ⟨?_, ?_, ?_, ?_⟩
  · intro g m ms h
    simp [initTrial, lookupA] at h
  · intro m inner ms g h
    simp [initTrial, lookupA] at h
  · intro t ht
    cases ht
  · intro t ht
    cases ht

theorem add_tensor_g2m_new (s : TrialState) (step : Nat) (w : String) (tObj : TensorRecord)
    (hc : lookupA s._global_to_mode step = none) :
    (add_tensor s step w tObj)._global_to_mode =
      s._global_to_mode ++ [(step, tObj.mode, tObj.mode_step)] := by
  simp [add_tensor_g2m, hc]

theorem add_tensor_g2m_old (s : TrialState) (step : Nat) (w : String) (tObj : TensorRecord)
    (p : ModeKeys × Nat) (hc : lookupA s._global_to_mode step = some p) :
    (add_tensor s step w tObj)._global_to_mode = s._global_to_mode := by
  simp [add_tensor_g2m, hc]

theorem add_tensor_m2g_global (s : TrialState) (step : Nat) (w : String) (tObj : TensorRecord)
    (hmode : tObj.mode = ModeKeys.GLOBAL) :
    (add_tensor s step w tObj)._mode_to_global = s._mode_to_global := by
  simp [add_tensor_m2g, hmode]

theorem add_tensor_m2g_newmode (s : TrialState) (step : Nat) (w : String) (tObj : TensorRecord)
    (hmode : tObj.mode ≠ ModeKeys.GLOBAL)
    (hcm : lookupA s._mode_to_global tObj.mode = none) :
    (add_tensor s step w tObj)._mode_to_global =
      s._mode_to_global ++ [(tObj.mode, [(tObj.mode_step, step)])] := by
  simp [add_tensor_m2g, hmode, hcm]

theorem add_tensor_m2g_newstep (s : TrialState) (step : Nat) (w : String) (tObj : TensorRecord)
    (inner₀ : List (Nat × Nat)) (hmode : tObj.mode ≠ ModeKeys.GLOBAL)
    (hcm : lookupA s._mode_to_global tObj.mode = some inner₀)
    (hpres : lookupA inner₀ tObj.mode_step = none) :
    (add_tensor s step w tObj)._mode_to_global =
      updateA s._mode_to_global tObj.mode (inner₀ ++ [(tObj.mode_step, step)]) := by
  simp [add_tensor_m2g, hmode, hcm, hpres]

theorem add_tensor_m2g_oldstep (s : TrialState) (step : Nat) (w : String) (tObj : TensorRecord)
    (inner₀ : List (Nat × Nat)) (g₀ : Nat) (hmode : tObj.mode ≠ ModeKeys.GLOBAL)
    (hcm : lookupA s._mode_to_global tObj.mode = some inner₀)
    (hpres : lookupA inner₀ tObj.mode_step = some g₀) :
    (add_tensor s step w tObj)._mode_to_global = s._mode_to_global := by
  simp [add_tensor_m2g, hmode, hcm, hpres]

theorem stepDictSound_add (s : TrialState) (tr : List (Nat × ModeKeys × Nat))
    (r : AddRec) (h : StepDictSound s tr) :
    StepDictSound (add_tensor s r.step r.worker r.record) (tr ++ [tripOf r]) := by
  obtain ⟨hgs, hms, hgc, hmc⟩ := h
  refine ⟨?_, ?_, ?_, ?_⟩
  · -- soundness of the global map
    intro g m ms hl
    cases hc : lookupA s._global_to_mode r.step with
    | none =>
      rw [add_tensor_g2m_new s r.step r.worker r.record hc, lookupA_append] at hl
      cases hcg : lookupA s._global_to_mode g with
      | some p =>
        rw [hcg] at hl
        cases hl
        exact List.mem_append_left _ (hgs g m ms hcg)
      | none =>
        rw [hcg] at hl
        by_cases hsg : r.step = g
        · subst hsg
          simp [lookupA] at hl
          refine List.mem_append_right _ ?_
          rw [← hl.1, ← hl.2]
          exact List.mem_singleton_self _
        · simp [lookupA, hsg] at hl
    | some p =>
      rw [add_tensor_g2m_old s r.step r.worker r.record p hc] at hl
      exact List.mem_append_left _ (hgs g m ms hl)
  · -- soundness of the mode map
    intro m inner ms g hl hi
    by_cases hmode : r.record.mode = ModeKeys.GLOBAL
    · rw [add_tensor_m2g_global s r.step r.worker r.record hmode] at hl
      exact ⟨List.mem_append_left _ (hms m inner ms g hl hi).1, (hms m inner ms g hl hi).2⟩
    · cases hcm : lookupA s._mode_to_global r.record.mode with
      | none =>
        rw [add_tensor_m2g_newmode s r.step r.worker r.record hmode hcm] at hl
        by_cases hmm : r.record.mode = m
        · subst hmm
          rw [lookupA_append_rightmost _ _ _ hcm] at hl
          cases hl
          by_cases hmsms : r.record.mode_step = ms
          · subst hmsms
            simp [lookupA] at hi
            subst hi
            exact ⟨List.mem_append_right _ (List.mem_singleton_self _), hmode⟩
          · simp [lookupA, hmsms] at hi
        · rw [lookupA_append_single_ne _ _ _ _ hmm] at hl
          exact ⟨List.mem_append_left _ (hms m inner ms g hl hi).1,
            (hms m inner ms g hl hi).2⟩
      | some inner₀ =>
        cases hpres : lookupA inner₀ r.record.mode_step with
        | none =>
          rw [add_tensor_m2g_newstep s r.step r.worker r.record inner₀ hmode hcm hpres] at hl
          by_cases hmm : r.record.mode = m
          · subst hmm
            rw [lookupA_updateA_self _ _ _ (by rw [hcm]; rfl)] at hl
            cases hl
            rw [lookupA_append] at hi
            cases hci : lookupA inner₀ ms with
            | some g₀ =>
              rw [hci] at hi
              cases hi
              exact ⟨List.mem_append_left _ (hms _ inner₀ ms g hcm hci).1, hmode⟩
            | none =>
              rw [hci] at hi
              by_cases hmsms : r.record.mode_step = ms
              · subst hmsms
                simp [lookupA] at hi
                subst hi
                exact ⟨List.mem_append_right _ (List.mem_singleton_self _), hmode⟩
              · simp [lookupA, hmsms] at hi
          · rw [lookupA_updateA_other _ _ _ _ hmm] at hl
            exact ⟨List.mem_append_left _ (hms m inner ms g hl hi).1,
              (hms m inner ms g hl hi).2⟩
        | some g₀ =>
          rw [add_tensor_m2g_oldstep s r.step r.worker r.record inner₀ g₀ hmode hcm hpres] at hl
          exact ⟨List.mem_append_left _ (hms m inner ms g hl hi).1,
            (hms m inner ms g hl hi).2⟩
  · -- completeness of the global map
    intro t ht
    rcases List.mem_append.mp ht with hold | hnew
    · obtain ⟨p, hp⟩ := Option.isSome_iff_exists.mp (hgc t hold)
      cases hc : lookupA s._global_to_mode r.step with
      | none =>
        rw [add_tensor_g2m_new s r.step r.worker r.record hc,
          lookupA_append_left _ _ _ _ hp]
        rfl
      | some q =>
        rw [add_tensor_g2m_old s r.step r.worker r.record q hc, hp]
        rfl
    · have hts : t = tripOf r := List.mem_singleton.mp hnew
      subst hts
      cases hc : lookupA s._global_to_mode r.step with
      | none =>
        rw [add_tensor_g2m_new s r.step r.worker r.record hc]
        rw [show (tripOf r).1 = r.step from rfl, lookupA_append_rightmost _ _ _ hc]
        rfl
      | some q =>
        rw [add_tensor_g2m_old s r.step r.worker r.record q hc]
        rw [show (tripOf r).1 = r.step from rfl, hc]
        rfl
  · -- completeness of the mode map
    intro t ht htm
    rcases List.mem_append.mp ht with hold | hnew
    · obtain ⟨inner, hinner, hsome⟩ := hmc t hold htm
      by_cases hmode : r.record.mode = ModeKeys.GLOBAL
      · rw [add_tensor_m2g_global s r.step r.worker r.record hmode]
        exact ⟨inner, hinner, hsome⟩
      · cases hcm : lookupA s._mode_to_global r.record.mode with
        | none =>
          rw [add_tensor_m2g_newmode s r.step r.worker r.record hmode hcm]
          refine ⟨inner, ?_, hsome⟩
          have hne : r.record.mode ≠ t.2.1 := by
            intro hcc
            rw [hcc, hinner] at hcm
            cases hcm
          rw [lookupA_append_single_ne _ _ _ _ hne]
          exact hinner
        | some inner₀ =>
          cases hpres : lookupA inner₀ r.record.mode_step with
          | none =>
            rw [add_tensor_m2g_newstep s r.step r.worker r.record inner₀ hmode hcm hpres]
            by_cases hmm : r.record.mode = t.2.1
            · rw [← hmm] at hinner ⊢
              have hinner₀ : inner = inner₀ := Option.some.inj (hinner.symm.trans hcm)
              subst hinner₀
              obtain ⟨g₀, hg₀⟩ := Option.isSome_iff_exists.mp hsome
              refine ⟨inner ++ [(r.record.mode_step, r.step)],
                lookupA_updateA_self _ _ _ (by rw [hinner]; rfl), ?_⟩
              rw [lookupA_append_left _ _ _ _ hg₀]
              rfl
            · refine ⟨inner, ?_, hsome⟩
              rw [lookupA_updateA_other _ _ _ _ hmm]
              exact hinner
          | some g₀ =>
            rw [add_tensor_m2g_oldstep s r.step r.worker r.record inner₀ g₀ hmode hcm hpres]
            exact ⟨inner, hinner, hsome⟩
    · have hts : t = tripOf r := List.mem_singleton.mp hnew
      subst hts
      have htm' : r.record.mode ≠ ModeKeys.GLOBAL := htm
      cases hcm : lookupA s._mode_to_global r.record.mode with
      | none =>
        rw [show (tripOf r).2.1 = r.record.mode from rfl,
          add_tensor_m2g_newmode s r.step r.worker r.record htm' hcm]
        refine ⟨[(r.record.mode_step, r.step)], lookupA_append_rightmost _ _ _ hcm, ?_⟩
        simp [lookupA, tripOf]
      | some inner₀ =>
        cases hpres : lookupA inner₀ r.record.mode_step with
        | none =>
          rw [show (tripOf r).2.1 = r.record.mode from rfl,
            add_tensor_m2g_newstep s r.step r.worker r.record inner₀ htm' hcm hpres]
          refine ⟨inner₀ ++ [(r.record.mode_step, r.step)],
            lookupA_updateA_self _ _ _ (by rw [hcm]; rfl), ?_⟩
          rw [show (tripOf r).2.2 = r.record.mode_step from rfl,
            lookupA_append_rightmost _ _ _ hpres]
          rfl
        | some g₀ =>
          rw [show (tripOf r).2.1 = r.record.mode from rfl,
            add_tensor_m2g_oldstep s r.step r.worker r.record inner₀ g₀ htm' hcm hpres]
          refine ⟨inner₀, hcm, ?_⟩
          rw [show (tripOf r).2.2 = r.record.mode_step from rfl, hpres]
          rfl

theorem applyAdds_sound (calls : List AddRec) (s : TrialState)
    (tr : List (Nat × ModeKeys × Nat)) (h : StepDictSound s tr) :
    StepDictSound (applyAdds s calls) (tr ++ calls.map tripOf) := by
  induction calls generalizing s tr with
  | nil => simpa using h
  | cons c rest ih =>
    have h1 := stepDictSound_add s tr c h
    have h2 := ih (add_tensor s c.step c.worker c.record) (tr ++ [tripOf c]) h1
    simpa [List.append_assoc] using h2

/-- Consistency of a trace of `add_tensor` calls: a global step never
arrives with two different (mode, mode-step) pairs, a non-GLOBAL
(mode, mode-step) pair never arrives with two different global steps, and
GLOBAL-mode records carry their global step as mode step. -/
def ConsistentTrace (tr : List (Nat × ModeKeys × Nat)) : Prop :=
  (∀ t ∈ tr, ∀ t' ∈ tr, t.1 = t'.1 → t.2 = t'.2) ∧
  (∀ t ∈ tr, ∀ t' ∈ tr, t.2.1 ≠ ModeKeys.GLOBAL → t.2 = t'.2 → t.1 = t'.1) ∧
  (∀ t ∈ tr, t.2.1 = ModeKeys.GLOBAL → t.2.2 = t.1)

theorem roundtrip_of_sound (s : TrialState) (tr : List (Nat × ModeKeys × Nat))
    (hS : StepDictSound s tr) (hC : ConsistentTrace tr) :
    (∀ g m ms, mode_modestep s g = some (m, ms) → global_step s m ms = some g) ∧
    (∀ m inner ms g, lookupA s._mode_to_global m = some inner → lookupA inner ms = some g →
      mode_modestep s g = some (m, ms)) := by
  obtain ⟨hgs, hms, hgc, hmc⟩ := hS
  obtain ⟨hC1, hC2, hC3⟩ := hC
  constructor
  · intro g m ms hg
    have htr : (g, m, ms) ∈ tr := hgs g m ms hg
    by_cases hm : m = ModeKeys.GLOBAL
    · subst hm
      have hmsg : ms = g := hC3 (g, ModeKeys.GLOBAL, ms) htr rfl
      unfold global_step _global_step_currently
      rw [if_pos rfl, hmsg]
    · obtain ⟨inner, hinner, hsome⟩ := hmc (g, m, ms) htr hm
      obtain ⟨g', hg'⟩ := Option.isSome_iff_exists.mp hsome
      have htr' := hms m inner ms g' hinner hg'
      have hgg : g' = g :=
        hC2 (g', m, ms) htr'.1 (g, m, ms) htr hm rfl
      unfold global_step _global_step_currently
      rw [if_neg hm]
      dsimp only at hinner hg'
      rw [hinner]
      show lookupA inner ms = some g
      rw [hg', hgg]
  · intro m inner ms g hm hg
    have htr := hms m inner ms g hm hg
    obtain ⟨p, hp⟩ := Option.isSome_iff_exists.mp (hgc (g, m, ms) htr.1)
    have htr2 : (g, p.1, p.2) ∈ tr := hgs g p.1 p.2 hp
    have hpq : ((g, m, ms) : Nat × ModeKeys × Nat).2 = ((g, p.1, p.2) : Nat × ModeKeys × Nat).2 :=
      hC1 (g, m, ms) htr.1 (g, p.1, p.2) htr2 rfl
    unfold mode_modestep _mode_modestep_currently
    rw [hp]
    have : p = (m, ms) := by
      obtain ⟨p1, p2⟩ := p
      exact congrArg id hpq.symm
    rw [this]

/-- Map entries persist unchanged under further `add_tensor` calls. -/
theorem g2m_persist (calls : List AddRec) (s : TrialState) (g : Nat) (p : ModeKeys × Nat)
    (h : lookupA s._global_to_mode g = some p) :
    lookupA (applyAdds s calls)._global_to_mode g = some p := by
  induction calls generalizing s with
  | nil => exact h
  | cons c rest ih =>
    apply ih
    cases hc : lookupA s._global_to_mode c.step with
    | none =>
      rw [add_tensor_g2m_new s c.step c.worker c.record hc]
      exact lookupA_append_left _ _ _ _ h
    | some q =>
      rw [add_tensor_g2m_old s c.step c.worker c.record q hc]
      exact h

theorem m2g_persist_one (s : TrialState) (step : Nat) (w : String) (tObj : TensorRecord)
    (m : ModeKeys) (inner : List (Nat × Nat)) (ms g : Nat)
    (h1 : lookupA s._mode_to_global m = some inner) (h2 : lookupA inner ms = some g) :
    ∃ inner', lookupA (add_tensor s step w tObj)._mode_to_global m = some inner' ∧
      lookupA inner' ms = some g := by
  by_cases hmode : tObj.mode = ModeKeys.GLOBAL
  · rw [add_tensor_m2g_global s step w tObj hmode]
    exact ⟨inner, h1, h2⟩
  · cases hcm : lookupA s._mode_to_global tObj.mode with
    | none =>
      rw [add_tensor_m2g_newmode s step w tObj hmode hcm]
      refine ⟨inner, ?_, h2⟩
      have hne : tObj.mode ≠ m := by
        intro hcc
        rw [hcc, h1] at hcm
        cases hcm
      rw [lookupA_append_single_ne _ _ _ _ hne]
      exact h1
    | some inner₀ =>
      cases hpres : lookupA inner₀ tObj.mode_step with
      | none =>
        rw [add_tensor_m2g_newstep s step w tObj inner₀ hmode hcm hpres]
        by_cases hmm : tObj.mode = m
        · rw [← hmm] at h1 ⊢
          have hinner₀ : inner = inner₀ := Option.some.inj (h1.symm.trans hcm)
          subst hinner₀
          refine ⟨inner ++ [(tObj.mode_step, step)],
            lookupA_updateA_self _ _ _ (by rw [h1]; rfl), ?_⟩
          exact lookupA_append_left _ _ _ _ h2
        · refine ⟨inner, ?_, h2⟩
          rw [lookupA_updateA_other _ _ _ _ hmm]
          exact h1
      | some g₀ =>
        rw [add_tensor_m2g_oldstep s step w tObj inner₀ g₀ hmode hcm hpres]
        exact ⟨inner, h1, h2⟩

theorem m2g_persist (calls : List AddRec) (s : TrialState) (m : ModeKeys)
    (inner : List (Nat × Nat)) (ms g : Nat)
    (h1 : lookupA s._mode_to_global m = some inner) (h2 : lookupA inner ms = some g) :
    ∃ inner', lookupA (applyAdds s calls)._mode_to_global m = some inner' ∧
      lookupA inner' ms = some g := by
  induction calls generalizing s inner with
  | nil => exact ⟨inner, h1, h2⟩
  | cons c rest ih =>
    obtain ⟨inner', h1', h2'⟩ := m2g_persist_one s c.step c.worker c.record m inner ms g h1 h2
    exact ih (add_tensor s c.step c.worker c.record) inner' h1' h2'

/-- The two calls of the counterexample: global step 1 then global step 2,
both claiming TRAIN mode-step 0. -/
def c1CallA : AddRec := ⟨1, "w0", ⟨"t", ModeKeys.TRAIN, 0, TensorPayload.value 7⟩⟩

def c1CallB : AddRec := ⟨2, "w0", ⟨"t", ModeKeys.TRAIN, 0, TensorPayload.value 8⟩⟩

def c1State : TrialState := applyAdds (initTrial ["w0"] 1 1000) [c1CallA, c1CallB]

/-- C1, counterexample: after recording (step 1, TRAIN, 0) and then
(step 2, TRAIN, 0), global step 2 is recorded with pair (TRAIN, 0), but
mapping that pair back yields 1, not 2 — the two maps are not exact
inverses after an arbitrary `add_tensor` sequence. -/
theorem C1_step_maps_counterexample :
    mode_modestep c1State 2 = some (ModeKeys.TRAIN, 0) ∧
    global_step c1State ModeKeys.TRAIN 0 = some 1 ∧ (1 : Nat) ≠ 2 := by
  refine ⟨by decide, by decide, by decide⟩

/-- C1, amended: for a consistent sequence of `add_tensor` calls — each
global step always carries the same (mode, mode-step) pair, each
non-GLOBAL pair always carries the same global step, and GLOBAL records
carry their global step as mode step — the two step maps are exact
inverses on every entry, and entries, once inserted, persist unchanged
under further calls. -/
theorem C1_step_maps_roundtrip (workers : List String) (nw window : Nat)
    (calls : List AddRec) (hC : ConsistentTrace (calls.map tripOf)) :
    (∀ g m ms,
      mode_modestep (applyAdds (initTrial workers nw window) calls) g = some (m, ms) →
      global_step (applyAdds (initTrial workers nw window) calls) m ms = some g) ∧
    (∀ m inner ms g,
      lookupA (applyAdds (initTrial workers nw window) calls)._mode_to_global m = some inner →
      lookupA inner ms = some g →
      mode_modestep (applyAdds (initTrial workers nw window) calls) g = some (m, ms)) ∧
    (∀ more g p,
      lookupA (applyAdds (initTrial workers nw window) calls)._global_to_mode g = some p →
      lookupA (applyAdds (applyAdds (initTrial workers nw window) calls) more)._global_to_mode
        g = some p) ∧
    (∀ more m inner ms g,
      lookupA (applyAdds (initTrial workers nw window) calls)._mode_to_global m = some inner →
      lookupA inner ms = some g →
      ∃ inner', lookupA (applyAdds (applyAdds (initTrial workers nw window) calls)
          more)._mode_to_global m = some inner' ∧ lookupA inner' ms = some g) := by
  have hS : StepDictSound (applyAdds (initTrial workers nw window) calls)
      ([] ++ calls.map tripOf) :=
    applyAdds_sound calls (initTrial workers nw window) [] (stepDictSound_init workers nw window)
  rw [List.nil_append] at hS
  have hrt := roundtrip_of_sound _ _ hS hC
  exact ⟨hrt.1, hrt.2, fun more g p h => g2m_persist more _ g p h,
    fun more m inner ms g h1 h2 => m2g_persist more _ m inner ms g h1 h2⟩

/-- Witness for C1's amended round trip: a consistent two-call trace
(TRAIN step 0 at global 10, GLOBAL step 11) round-trips both entries. -/
theorem C1_step_maps_roundtrip_witness :
    global_step
      (applyAdds (initTrial ["w0"] 1 1000)
        [⟨10, "w0", ⟨"t", ModeKeys.TRAIN, 0, TensorPayload.value 7⟩⟩,
          ⟨11, "w0", ⟨"t", ModeKeys.GLOBAL, 11, TensorPayload.value 8⟩⟩])
      ModeKeys.TRAIN 0 = some 10 := by
  have h := (C1_step_maps_roundtrip ["w0"] 1 1000
    [⟨10, "w0", ⟨"t", ModeKeys.TRAIN, 0, TensorPayload.value 7⟩⟩,
      ⟨11, "w0", ⟨"t", ModeKeys.GLOBAL, 11, TensorPayload.value 8⟩⟩]
    (by exact ⟨by decide, by decide, by decide⟩)).1
  exact h 10 ModeKeys.TRAIN 0 (by decide)

/-! C10: GLOBAL never becomes a mode-map key. -/

theorem lookupA_isSome_of_mem {α β : Type} [DecidableEq α] (l : List (α × β)) (a : α)
    (h : a ∈ l.map Prod.fst) : (lookupA l a).isSome := by
  rw [Option.isSome_iff_ne_none]
  intro hc
  exact (lookupA_eq_none_iff l a).mp hc h

theorem add_m2g_global_lookup (s : TrialState) (step : Nat) (w : String) (tObj : TensorRecord) :
    lookupA (add_tensor s step w tObj)._mode_to_global ModeKeys.GLOBAL =
      lookupA s._mode_to_global ModeKeys.GLOBAL := by
  by_cases hmode : tObj.mode = ModeKeys.GLOBAL
  · rw [add_tensor_m2g_global s step w tObj hmode]
  · cases hcm : lookupA s._mode_to_global tObj.mode with
    | none =>
      rw [add_tensor_m2g_newmode s step w tObj hmode hcm,
        lookupA_append_single_ne _ _ _ _ hmode]
    | some inner₀ =>
      cases hpres : lookupA inner₀ tObj.mode_step with
      | none =>
        rw [add_tensor_m2g_newstep s step w tObj inner₀ hmode hcm hpres,
          lookupA_updateA_other _ _ _ _ hmode]
      | some g₀ =>
        rw [add_tensor_m2g_oldstep s step w tObj inner₀ g₀ hmode hcm hpres]

theorem windowForce_m2g (s1 : TrialState) (tok : IndexToken) :
    (windowForceState s1 tok)._mode_to_global = s1._mode_to_global := by
  unfold windowForceState
  split_ifs with h
  · cases hE : lastWorker s1.worker_set <;> rfl
  · rfl

theorem update_m2g (s : TrialState) (tok : IndexToken) :
    (_update_last_index_token s tok)._mode_to_global = s._mode_to_global := by
  unfold _update_last_index_token
  rw [windowForce_m2g, (catchUp_frame s tok).2.1]

theorem foldl_m2g_global (recs : List AddRec) (s : TrialState) :
    lookupA (recs.foldl (fun st r => add_tensor st r.step r.worker r.record)
        s)._mode_to_global ModeKeys.GLOBAL =
      lookupA s._mode_to_global ModeKeys.GLOBAL := by
  induction recs generalizing s with
  | nil => rfl
  | cons c rest ih =>
    rw [List.foldl_cons, ih, add_m2g_global_lookup]

theorem refresh_m2g_global (s : TrialState) (recs : List AddRec) (tok : Option IndexToken) :
    lookupA (refresh_tensors s recs tok)._mode_to_global ModeKeys.GLOBAL =
      lookupA s._mode_to_global ModeKeys.GLOBAL := by
  cases tok with
  | none =>
    rw [refresh_tensors_none]
    exact foldl_m2g_global recs s
  | some t =>
    rw [refresh_tensors_some, update_m2g]
    exact foldl_m2g_global recs s

theorem maybe_refresh_m2g_global (s : TrialState) (ended : Bool) (r1 : List AddRec)
    (t1 : Option IndexToken) (r2 : List AddRec) (t2 : Option IndexToken) :
    lookupA (maybe_refresh s ended r1 t1 r2 t2)._mode_to_global ModeKeys.GLOBAL =
      lookupA s._mode_to_global ModeKeys.GLOBAL := by
  rcases maybe_refresh_cases s ended r1 t1 r2 t2 with hc | hc | hc <;> rw [hc]
  · exact refresh_m2g_global s r1 t1
  · show lookupA (refresh_tensors (refresh_tensors s r1 t1) r2 t2)._mode_to_global
      ModeKeys.GLOBAL = lookupA s._mode_to_global ModeKeys.GLOBAL
    rw [refresh_m2g_global, refresh_m2g_global]

theorem applyOps_m2g_global_none (ops : List TrialOp) (s : TrialState)
    (h : lookupA s._mode_to_global ModeKeys.GLOBAL = none) :
    lookupA (applyOps s ops)._mode_to_global ModeKeys.GLOBAL = none := by
  induction ops generalizing s with
  | nil => exact h
  | cons op rest ih =>
    apply ih
    cases op with
    | add step worker record =>
      show lookupA (add_tensor s step worker record)._mode_to_global ModeKeys.GLOBAL = none
      rw [add_m2g_global_lookup]
      exact h
    | update tok =>
      show lookupA (_update_last_index_token s tok)._mode_to_global ModeKeys.GLOBAL = none
      rw [update_m2g]
      exact h
    | refreshT recs tok =>
      show lookupA (refresh_tensors s recs tok)._mode_to_global ModeKeys.GLOBAL = none
      rw [refresh_m2g_global]
      exact h
    | maybeR ended r1 t1 r2 t2 =>
      show lookupA (maybe_refresh s ended r1 t1 r2 t2)._mode_to_global ModeKeys.GLOBAL = none
      rw [maybe_refresh_m2g_global]
      exact h

/-- C10: GLOBAL-mode records are never inserted into the mode→global map —
after any operation sequence `modes()` never includes GLOBAL — and a
GLOBAL-mode `add_tensor` leaves the mode map untouched while its step
becomes reachable through the global→mode map and `_all_steps(GLOBAL)`. -/
theorem C10_global_mode_hidden :
    (∀ (workers : List String) (nw window : Nat) (ops : List TrialOp),
      ModeKeys.GLOBAL ∉ modes (applyOps (initTrial workers nw window) ops)) ∧
    (∀ (s : TrialState) (step : Nat) (w : String) (tObj : TensorRecord),
      tObj.mode = ModeKeys.GLOBAL →
      (add_tensor s step w tObj)._mode_to_global = s._mode_to_global ∧
      (lookupA (add_tensor s step w tObj)._global_to_mode step).isSome ∧
      step ∈ _all_steps (add_tensor s step w tObj) ModeKeys.GLOBAL) := by
  constructor
  · intro workers nw window ops
    have h := applyOps_m2g_global_none ops (initTrial workers nw window) rfl
    unfold modes
    exact (lookupA_eq_none_iff _ _).mp h
  · intro s step w tObj hmode
    refine ⟨add_tensor_m2g_global s step w tObj hmode, ?_, ?_⟩
    · exact lookupA_isSome_of_mem _ _ (add_tensor_step_mem s step w tObj)
    · exact (mem_all_steps_global _ _).mpr (add_tensor_step_mem s step w tObj)

/-- Witness for C10's per-record clause at a concrete GLOBAL-mode record. -/
theorem C10_global_mode_hidden_witness :
    (add_tensor (initTrial ["w0"] 1 1000) 3 "w0" (recGlobal 3))._mode_to_global =
      (initTrial ["w0"] 1 1000)._mode_to_global ∧
    3 ∈ _all_steps (add_tensor (initTrial ["w0"] 1 1000) 3 "w0" (recGlobal 3))
      ModeKeys.GLOBAL := by
  have h := C10_global_mode_hidden.2 (initTrial ["w0"] 1 1000) 3 "w0" (recGlobal 3) rfl
  exact ⟨h.1, h.2.2⟩

/-! C8: reduction-name decomposition and routing. -/

theorem listStartsWith_append (p r : List Char) : listStartsWith p (p ++ r) = true := by
  induction p with
  | nil => rfl
  | cons a as ih => simp [listStartsWith, ih]

theorem listHasInside_of_startsWith (p l : List Char) (h : listStartsWith p l = true) :
    listHasInside p l = true := by
  cases l with
  | nil => exact h
  | cons c rest => simp [listHasInside, h]

theorem splitAtLastSlash_append (l₁ l₂ : List Char) (h : ('/' : Char) ∉ l₂) :
    splitAtLastSlash (l₁ ++ '/' :: l₂) = (l₁, l₂) := by
  induction l₁ with
  | nil => simp [splitAtLastSlash, h]
  | cons c l₁ ih =>
    have hmem : ('/' : Char) ∈ l₁ ++ '/' :: l₂ :=
      List.mem_append_right _ (List.mem_cons_self _ _)
    simp [splitAtLastSlash, hmem, ih]

theorem mk_red_name_toList_false (base op : String) :
    (mkReductionTensorName base op false).toList =
      tornasoleReductionsMarker.toList ++ (base.toList ++ '/' :: op.toList) := by
  show (tornasoleReductionsMarker ++ base ++ "/" ++ "" ++ op).data = _
  rw [String.data_append, String.data_append, String.data_append, String.data_append]
  rw [show ("" : String).data = [] from rfl, show ("/" : String).data = ['/'] from rfl]
  simp [String.toList, List.append_assoc]

theorem mk_red_name_toList_true (base op : String) :
    (mkReductionTensorName base op true).toList =
      tornasoleReductionsMarker.toList ++
        (base.toList ++ '/' :: (("abs_" : String).toList ++ op.toList)) := by
  show (tornasoleReductionsMarker ++ base ++ "/" ++ "abs_" ++ op).data = _
  rw [String.data_append, String.data_append, String.data_append, String.data_append]
  rw [show ("/" : String).data = ['/'] from rfl]
  simp [String.toList, List.append_assoc]

/-- A reduction-prefixed name always carries the marker. -/
theorem hasMarker_mk (base op : String) (absFlag : Bool) :
    hasReductionsMarker (mkReductionTensorName base op absFlag) = true := by
  unfold hasReductionsMarker
  cases absFlag
  · rw [mk_red_name_toList_false]
    exact listHasInside_of_startsWith _ _ (listStartsWith_append _ _)
  · rw [mk_red_name_toList_true]
    exact listHasInside_of_startsWith _ _ (listStartsWith_append _ _)

/-- The decomposition inverts the encoding: for an op name free of `/` and
not spuriously starting with the abs marker, `reverse_reduction_tensor_name`
recovers exactly the (base, op, abs-flag) triple. -/
theorem reverse_mk (base op : String) (absFlag : Bool)
    (hop : ('/' : Char) ∉ op.toList)
    (habs : absFlag = false → listStartsWith "abs_".toList op.toList = false) :
    reverse_reduction_tensor_name (mkReductionTensorName base op absFlag) =
      (base, op, absFlag) := by
  cases absFlag
  · have hno := habs rfl
    unfold reverse_reduction_tensor_name
    rw [mk_red_name_toList_false, List.drop_left]
    show (match splitAtLastSlash (base.toList ++ '/' :: op.toList) with
      | (b, red) =>
        if listStartsWith "abs_".toList red = true
          then (String.mk b, String.mk (red.drop 4), true)
          else (String.mk b, String.mk red, false)) = (base, op, false)
    rw [splitAtLastSlash_append base.toList op.toList hop]
    show (if listStartsWith "abs_".toList op.toList = true
      then (String.mk base.toList, String.mk (op.toList.drop 4), true)
      else (String.mk base.toList, String.mk op.toList, false)) = (base, op, false)
    rw [hno]
    rfl
  · have hnabs : ('/' : Char) ∉ ("abs_" : String).toList ++ op.toList := by
      intro hmem
      rcases List.mem_append.mp hmem with hm | hm
      · simp [String.toList] at hm
      · exact hop hm
    unfold reverse_reduction_tensor_name
    rw [mk_red_name_toList_true, List.drop_left]
    show (match splitAtLastSlash (base.toList ++ '/' ::
        (("abs_" : String).toList ++ op.toList)) with
      | (b, red) =>
        if listStartsWith "abs_".toList red = true
          then (String.mk b, String.mk (red.drop 4), true)
          else (String.mk b, String.mk red, false)) = (base, op, true)
    rw [splitAtLastSlash_append base.toList (("abs_" : String).toList ++ op.toList) hnabs]
    show (if listStartsWith "abs_".toList (("abs_" : String).toList ++ op.toList) = true
      then (String.mk base.toList,
        String.mk ((("abs_" : String).toList ++ op.toList).drop 4), true)
      else (String.mk base.toList,
        String.mk (("abs_" : String).toList ++ op.toList), false)) = (base, op, true)
    rw [listStartsWith_append ("abs_" : String).toList op.toList]
    have hdrop : ((("abs_" : String).toList ++ op.toList).drop 4) = op.toList :=
      List.drop_left ("abs_" : String).toList op.toList
    rw [if_pos rfl, hdrop]
    rfl

theorem psd_tensors (s : TrialState) (tObj : TensorRecord) (n : Nat) :
    (_populate_step_dict s tObj n)._tensors = s._tensors := rfl

theorem pwfs_tensors (s : TrialState) (step : Nat) (w : String) :
    (_populate_workers_for_step s step w)._tensors = s._tensors := by
  unfold _populate_workers_for_step
  split_ifs <;> rfl

theorem add_tensor_tensors (s : TrialState) (step : Nat) (w : String) (tObj : TensorRecord) :
    (add_tensor s step w tObj)._tensors =
      updateA (addTensorEntry s tObj)._tensors (addTname tObj)
        (histUpdate ((lookupA (addTensorEntry s tObj)._tensors (addTname tObj)).getD
          (emptyTensor (addTname tObj))) w tObj) := by
  unfold add_tensor addHistEntry
  rw [pwfs_tensors]
  rfl

theorem addTensorEntry_lookup (s : TrialState) (tObj : TensorRecord) :
    lookupA (addTensorEntry s tObj)._tensors (addTname tObj) =
      some ((lookupA s._tensors (addTname tObj)).getD (emptyTensor (addTname tObj))) := by
  unfold addTensorEntry
  dsimp only
  cases h : lookupA s._tensors (addTname tObj) with
  | none =>
    rw [if_pos (show (none : Option TensorHist).isNone = true from rfl),
      lookupA_append_rightmost _ _ _ h]
    rfl
  | some t0 =>
    rw [if_neg (by simp), h]
    rfl

theorem add_tensor_keys (s : TrialState) (step : Nat) (w : String) (tObj : TensorRecord) :
    (add_tensor s step w tObj)._tensors.map Prod.fst =
      (if (lookupA s._tensors (addTname tObj)).isNone
        then s._tensors.map Prod.fst ++ [addTname tObj]
        else s._tensors.map Prod.fst) := by
  rw [add_tensor_tensors, updateA_keys]
  unfold addTensorEntry
  dsimp only
  by_cases h : (lookupA s._tensors (addTname tObj)).isNone
  · rw [if_pos h, if_pos h, List.map_append]
    rfl
  · rw [if_neg h, if_neg h]

theorem applyAdds_keys_marker_free (calls : List AddRec) (s : TrialState)
    (hs : ∀ k ∈ s._tensors.map Prod.fst, hasReductionsMarker k = false)
    (hc : ∀ r ∈ calls, hasReductionsMarker (addTname r.record) = false) :
    ∀ k ∈ (applyAdds s calls)._tensors.map Prod.fst, hasReductionsMarker k = false := by
  induction calls generalizing s with
  | nil => exact hs
  | cons c rest ih =>
    have hs' : ∀ k ∈ (add_tensor s c.step c.worker c.record)._tensors.map Prod.fst,
        hasReductionsMarker k = false := by
      intro k hk
      rw [add_tensor_keys] at hk
      by_cases h : (lookupA s._tensors (addTname c.record)).isNone
      · rw [if_pos h] at hk
        rcases List.mem_append.mp hk with hm | hm
        · exact hs k hm
        · rw [List.mem_singleton.mp hm]
          exact hc c (List.mem_cons_self _ _)
      · rw [if_neg h] at hk
        exact hs k hk
    exact ih (add_tensor s c.step c.worker c.record) hs'
      (fun r hr => hc r (List.mem_cons_of_mem _ hr))

/-- C8: a reduction-prefixed tensor name decomposes deterministically into
its (base, op, abs-flag) triple (the decomposition inverts the encoding);
`add_tensor` appends such a record to the base tensor's reduction history,
leaving the primary history alone; and across any call sequence whose
reduction records decompose to marker-free base names, the tensor store
never gains a key carrying the marker — in particular never the prefixed
name itself. -/
theorem C8_reduction_routing :
    (∀ (base op : String) (absFlag : Bool),
      ('/' : Char) ∉ op.toList →
      (absFlag = false → listStartsWith "abs_".toList op.toList = false) →
      hasReductionsMarker (mkReductionTensorName base op absFlag) = true ∧
      reverse_reduction_tensor_name (mkReductionTensorName base op absFlag) =
        (base, op, absFlag)) ∧
    (∀ (s : TrialState) (step : Nat) (w : String) (tObj : TensorRecord),
      hasReductionsMarker tObj.tensorname = true →
      ∃ t', lookupA (add_tensor s step w tObj)._tensors
          (reverse_reduction_tensor_name tObj.tensorname).1 = some t' ∧
        t'.reductions =
          ((lookupA s._tensors (reverse_reduction_tensor_name tObj.tensorname).1).getD
            (emptyTensor (reverse_reduction_tensor_name tObj.tensorname).1)).reductions ++
          [(tObj.mode, tObj.mode_step, w, (reverse_reduction_tensor_name tObj.tensorname).2.1,
            (reverse_reduction_tensor_name tObj.tensorname).2.2, tObj.payload)] ∧
        t'.steps =
          ((lookupA s._tensors (reverse_reduction_tensor_name tObj.tensorname).1).getD
            (emptyTensor (reverse_reduction_tensor_name tObj.tensorname).1)).steps) ∧
    (∀ (workers : List String) (nw window : Nat) (calls : List AddRec),
      (∀ r ∈ calls, hasReductionsMarker (addTname r.record) = false) →
      ∀ n, hasReductionsMarker n = true →
        n ∉ (applyAdds (initTrial workers nw window) calls)._tensors.map Prod.fst) := by
  refine ⟨?_, ?_, ?_⟩
  · intro base op absFlag hop habs
    exact ⟨hasMarker_mk base op absFlag, reverse_mk base op absFlag hop habs⟩
  · intro s step w tObj hred
    have hbase : addTname tObj = (reverse_reduction_tensor_name tObj.tensorname).1 := by
      simp [addTname, hred]
    rw [add_tensor_tensors, ← hbase, addTensorEntry_lookup]
    refine ⟨histUpdate ((lookupA s._tensors (addTname tObj)).getD
      (emptyTensor (addTname tObj))) w tObj, ?_, ?_, ?_⟩
    · exact lookupA_updateA_self _ _ _ (by rw [addTensorEntry_lookup]; rfl)
    · simp [histUpdate, hred]
    · simp [histUpdate, hred]
  · intro workers nw window calls hcalls n hn hmem
    have hfree := applyAdds_keys_marker_free calls (initTrial workers nw window)
      (by intro k hk; cases hk) hcalls n hmem
    rw [hn] at hfree
    cases hfree

/-- Witness for C8 at a concrete reduction record: the encoded name
decomposes back to its triple and the record lands in the base tensor's
reduction history. -/
theorem C8_reduction_routing_witness :
    reverse_reduction_tensor_name (mkReductionTensorName "cw" "max" true) =
      ("cw", "max", true) ∧
    ∃ t', lookupA (add_tensor (initTrial ["w0"] 1 1000) 1 "w0"
        ⟨mkReductionTensorName "cw" "max" true, ModeKeys.GLOBAL, 1,
          TensorPayload.value 9⟩)._tensors
        (reverse_reduction_tensor_name (mkReductionTensorName "cw" "max" true)).1 = some t' ∧
      t'.reductions = [(ModeKeys.GLOBAL, 1, "w0", "max", true, TensorPayload.value 9)] := by
  constructor
  · exact (C8_reduction_routing.1 "cw" "max" true (by decide) (by intro h; cases h)).2
  · obtain ⟨t', h1, h2, h3⟩ := C8_reduction_routing.2.1 (initTrial ["w0"] 1 1000) 1 "w0"
      ⟨mkReductionTensorName "cw" "max" true, ModeKeys.GLOBAL, 1, TensorPayload.value 9⟩
      (by decide)
    refine ⟨t', h1, ?_⟩
    rw [h2]
    decide

end Tornasole
